import Mathlib

set_option maxHeartbeats 1600000

/-
Shallow embedding of the network-builder query engine of the repository
(class NetworkBuilder in src/services/networkBuilder.ts).

Modelling conventions, used consistently below:
- JavaScript Set objects are modelled as duplicate-free lists in insertion
  order (insertUniq appends an element only when it is not present yet).
- JavaScript Map objects are modelled as association lists in key-insertion
  order; mapSet updates an existing key in place and appends a fresh key at
  the end, exactly like Map.set.
- Edge endpoints are carried as bare identifier strings: the snapshot loader
  hands the engine normalized links (spec section 6), and every access in the
  source goes through the same `typeof link.source === "string"` idiom.
- The node record is split into the part the engine only reads (NodeCore) and
  the four display fields the engine overwrites in step 8 of buildNetwork
  (val, totalVal, color, baseColor).  The property bag keeps its string-valued
  entries, the only ones the search stage can observe.
- Floating point display arithmetic (the color gradient) is modelled exactly
  over the rational numbers; no verified claim depends on float rounding.
-/

-- ==============================
-- JS-like collection helpers
-- ==============================

/-- JavaScript string containment, `hay.includes term`. -/
def strIncludes (hay term : String) : Bool :=
  (List.range (hay.data.length + 1)).any (fun i => term.data.isPrefixOf (hay.data.drop i))

/-- JavaScript toLowerCase, modelled as ASCII case mapping on the character
list (structurally recursive so that proofs can evaluate it). -/
def strToLower (s : String) : String := ⟨s.data.map Char.toLower⟩

/-- Whitespace for the purposes of String.prototype.trim. -/
def isJsWhitespace (c : Char) : Bool := c = ' ' ∨ c = '\t' ∨ c = '\n' ∨ c = '\r'

/-- JavaScript trim: strip whitespace from both ends. -/
def strTrim (s : String) : String :=
  ⟨((s.data.dropWhile isJsWhitespace).reverse.dropWhile isJsWhitespace).reverse⟩

/-- JavaScript `a || b` on optional strings: an absent value and the empty
string are falsy. -/
def jsOrS (a b : Option String) : Option String :=
  match a with
  | some s => if s = "" then b else some s
  | none => b

/-- Add an element to a JS Set (append only when absent). -/
def insertUniq (l : List String) (x : String) : List String :=
  if l.contains x then l else l ++ [x]

/-- JS `new Set(l)` : deduplicate keeping first occurrences. -/
def jsSetOf (l : List String) : List String :=
  l.foldl insertUniq []

/-- JS `Map.get` on an association list. -/
def mapGet {α : Type} (m : List (String × α)) (k : String) : Option α :=
  match m with
  | [] => none
  | (k0, v) :: rest => if k0 = k then some v else mapGet rest k

/-- JS `Map.set` : update in place, or append a fresh key. -/
def mapSet {α : Type} (m : List (String × α)) (k : String) (v : α) : List (String × α) :=
  match m with
  | [] => [(k, v)]
  | (k0, v0) :: rest => if k0 = k then (k0, v) :: rest else (k0, v0) :: mapSet rest k v

/-- JS `Map.has`. -/
def mapHas {α : Type} (m : List (String × α)) (k : String) : Bool :=
  (mapGet m k).isSome

def mapKeys {α : Type} (m : List (String × α)) : List String := m.map (fun e => e.1)

def mapValues {α : Type} (m : List (String × α)) : List α := m.map (fun e => e.2)

/-- The step `map.set(k, (map.get(k) || 0) + 1)` of the degree-counting loops. -/
def bumpCount (m : List (String × Nat)) (k : String) : List (String × Nat) :=
  match m with
  | [] => [(k, 1)]
  | (k0, v) :: rest => if k0 = k then (k0, v + 1) :: rest else (k0, v) :: bumpCount rest k

/-- Stable insertion used to model `Array.prototype.sort` (stable since
ES2019) with comparator `(a, b) => key b - key a`, i.e. descending by key,
ties kept in original order. -/
def insertDesc {α : Type} (key : α → Nat) (x : α) : List α → List α
  | [] => [x]
  | y :: ys => if key x < key y then y :: insertDesc key x ys else x :: y :: ys

/-- Stable descending sort by a Nat key. -/
def sortDesc {α : Type} (key : α → Nat) : List α → List α
  | [] => []
  | x :: xs => insertDesc key x (sortDesc key xs)

-- ==============================
-- Data model (src/types.ts, restricted to fields the engine reads)
-- ==============================

/-- The part of a graph node the engine reads but never writes. -/
structure NodeCore where
  id : String
  name : String
  node_type : String
  display_label : Option String
  properties : List (String × String)
  text : Option String
  section_text : Option String
  index_heading : Option String
  full_name : Option String
  deriving Repr, DecidableEq

/-- A graph node: the read-only core plus the display fields that step 8 of
buildNetwork overwrites in place. -/
structure GraphNode where
  core : NodeCore
  val : Int
  totalVal : Int
  color : String
  baseColor : String
  deriving Repr, DecidableEq

/-- A graph link with endpoints normalized to identifier strings. -/
structure GraphLink where
  source : String
  target : String
  action : String
  edge_type : String
  weight : Nat
  deriving Repr, DecidableEq

/-- One adjacency record: `{ neighborId, edgeType }`. -/
structure AdjEntry where
  neighborId : String
  edgeType : String
  deriving Repr, DecidableEq

/-- The query value (interface NetworkBuilderState), restricted to the fields
buildNetwork reads.  expansionDepth only bounds a loop from below by zero and
maxTotalNodes only enters Nat comparisons and Nat slices, so both are Nat;
maxNodesPerExpansion is compared with `> 0`, so it stays an Int. -/
structure NetworkBuilderState where
  searchTerms : List String
  searchFields : List String
  allowedNodeTypes : List String
  allowedEdgeTypes : List String
  expansionDepth : Nat
  maxNodesPerExpansion : Int
  maxTotalNodes : Nat
  deriving Repr, DecidableEq

/-- The result record (interface FilteredGraph). -/
structure FilteredGraph where
  nodes : List GraphNode
  links : List GraphLink
  truncated : Bool
  matchedCount : Nat
  deriving Repr, DecidableEq

inductive SearchLogic where
  | AND
  | OR
  deriving Repr, DecidableEq

inductive RankMode where
  | global
  | subgraph
  deriving Repr, DecidableEq

/-- The engine instance: node list, link list and the adjacency index. -/
structure NetworkBuilder where
  allNodes : List GraphNode
  allLinks : List GraphLink
  adjacencyMap : List (String × List AdjEntry)
  deriving Repr

/-- Append one adjacency record to the list of a key (creating the key at the
end when absent), like `map.get(k)!.push(e)` after the guarded `map.set(k, [])`. -/
def adjAdd (m : List (String × List AdjEntry)) (k : String) (e : AdjEntry) :
    List (String × List AdjEntry) :=
  match m with
  | [] => [(k, [e])]
  | (k0, es) :: rest => if k0 = k then (k0, es ++ [e]) :: rest else (k0, es) :: adjAdd rest k e

/-- Adjacency construction of the constructor: every link is inserted twice,
once per direction, preserving link order per key. -/
def buildAdjacency (links : List GraphLink) : List (String × List AdjEntry) :=
  links.foldl
    (fun m l =>
      adjAdd (adjAdd m l.source ⟨l.target, l.edge_type⟩) l.target ⟨l.source, l.edge_type⟩)
    []

/-- The constructor `new NetworkBuilder(nodes, links)`. -/
def mkNetworkBuilder (nodes : List GraphNode) (links : List GraphLink) : NetworkBuilder :=
  ⟨nodes, links, buildAdjacency links⟩

/-- The lookup `adjacencyMap.get(nodeId) || []`. -/
def adjGet (m : List (String × List AdjEntry)) (k : String) : List AdjEntry :=
  (mapGet m k).getD []

-- ==============================
-- Search stage (NetworkBuilder.searchNodes)
-- ==============================

/-- The default branch of the field switch, `(node as any)[field]`, restricted
to the attributes carried by this embedding; absent attributes are undefined.
Numeric attributes are stringified the way `String(value)` does. -/
def attrLookup (n : GraphNode) (field : String) : Option String :=
  if field = "id" then some n.core.id
  else if field = "name" then some n.core.name
  else if field = "node_type" then some n.core.node_type
  else if field = "display_label" then n.core.display_label
  else if field = "text" then n.core.text
  else if field = "section_text" then n.core.section_text
  else if field = "index_heading" then n.core.index_heading
  else if field = "full_name" then n.core.full_name
  else if field = "val" then some (toString n.val)
  else if field = "totalVal" then some (toString n.totalVal)
  else if field = "color" then some n.color
  else if field = "baseColor" then some n.baseColor
  else none

/-- One iteration of the `searchFields.forEach` loop: extend the collected
searchable values by the values of one field of one node. -/
def searchFieldStep (n : GraphNode) (acc : List String) (field : String) : List String :=
  if field = "properties" then
    acc ++ n.core.properties.map (fun p => p.2.toLower)
  else
    let value : Option String :=
      if field = "text" then
        jsOrS (mapGet n.core.properties "text")
          (jsOrS n.core.text (jsOrS n.core.section_text n.core.index_heading))
      else if field = "full_name" then
        jsOrS (mapGet n.core.properties "full_name") n.core.full_name
      else if field = "display_label" then n.core.display_label
      else if field = "definition" then mapGet n.core.properties "definition"
      else if field = "entity" then
        (if n.core.node_type = "entity" then some n.core.name else none)
      else if field = "concept" then
        (if n.core.node_type = "concept" then some n.core.name else none)
      else attrLookup n field
    match value with
    | some v => acc ++ [strToLower v]
    | none => acc

/-- All searchable values collected for one node. -/
def searchableValuesFor (n : GraphNode) (fields : List String) : List String :=
  fields.foldl (searchFieldStep n) []

/-- Whether one node matches the normalized terms under the given logic. -/
def nodeMatches (searchTerms searchFields : List String) (logic : SearchLogic)
    (node : GraphNode) : Bool :=
  let normalizedTerms := searchTerms.map (fun t => strTrim (strToLower t))
  let searchableValues := searchableValuesFor node searchFields
  match logic with
  | .OR =>
      normalizedTerms.any (fun term => searchableValues.any (fun sv => strIncludes sv term))
  | .AND =>
      normalizedTerms.all (fun term => searchableValues.any (fun sv => strIncludes sv term))

/-- NetworkBuilder.searchNodes: the set of matching node identifiers. -/
def searchNodes (b : NetworkBuilder) (searchTerms searchFields : List String)
    (logic : SearchLogic) : List String :=
  b.allNodes.foldl
    (fun matchedIds node =>
      if nodeMatches searchTerms searchFields logic node then
        insertUniq matchedIds node.core.id
      else matchedIds)
    []

-- ==============================
-- Expansion stage (NetworkBuilder.expandFromSeeds)
-- ==============================

/-- The innermost forEach of expandFromSeeds: visit one neighbor record,
adding an unseen neighbor to the expanded set and to the next layer. -/
def expandVisit (acc2 : List String × List String) (e : AdjEntry) :
    List String × List String :=
  if acc2.1.contains e.neighborId then acc2
  else (acc2.1 ++ [e.neighborId], acc2.2 ++ [e.neighborId])

/-- The neighbor list one BFS iteration actually walks for one node: the
adjacency list, filtered by the edge-type allow-list only when that list is
non-empty, then cut to the first maxNeighborsPerNode entries when that cap is
positive. -/
def limitedNeighborsOf (b : NetworkBuilder) (maxNeighborsPerNode : Int)
    (allowedEdgeTypes : List String) (nodeId : String) : List AdjEntry :=
  let neighbors := adjGet b.adjacencyMap nodeId
  let filteredNeighbors :=
    if allowedEdgeTypes.length > 0 then
      neighbors.filter (fun n => allowedEdgeTypes.contains n.edgeType)
    else neighbors
  if maxNeighborsPerNode > 0 then
    filteredNeighbors.take maxNeighborsPerNode.toNat
  else filteredNeighbors

/-- Process one node of the current layer. -/
def expandNode (b : NetworkBuilder) (maxNeighborsPerNode : Int)
    (allowedEdgeTypes : List String) (acc : List String × List String)
    (nodeId : String) : List String × List String :=
  (limitedNeighborsOf b maxNeighborsPerNode allowedEdgeTypes nodeId).foldl expandVisit acc

/-- The body of one BFS iteration: state is (expanded, nextLayer); the fold
runs over the current layer. -/
def expandStep (b : NetworkBuilder) (maxNeighborsPerNode : Int)
    (allowedEdgeTypes : List String) (currentLayer : List String)
    (expanded : List String) : List String × List String :=
  currentLayer.foldl (expandNode b maxNeighborsPerNode allowedEdgeTypes) (expanded, [])

/-- The `for (let i = 0; i < depth; i++)` loop with its early stop on an
empty layer; state is (expanded, currentLayer). -/
def expandLoop (b : NetworkBuilder) (maxNeighborsPerNode : Int)
    (allowedEdgeTypes : List String) :
    Nat → List String × List String → List String × List String
  | 0, st => st
  | d + 1, st =>
      let st2 := expandStep b maxNeighborsPerNode allowedEdgeTypes st.2 st.1
      if st2.2.length = 0 then st2 else expandLoop b maxNeighborsPerNode allowedEdgeTypes d st2

/-- NetworkBuilder.expandFromSeeds. -/
def expandFromSeeds (b : NetworkBuilder) (seedIds : List String) (depth : Nat)
    (maxNeighborsPerNode : Int) (allowedEdgeTypes : List String) : List String :=
  (expandLoop b maxNeighborsPerNode allowedEdgeTypes depth (jsSetOf seedIds, jsSetOf seedIds)).1

-- ==============================
-- buildNetwork, steps 1 and 2 (search, expansion, seed re-filter)
-- ==============================

/-- Candidate identifier set of steps 1 to 2 of buildNetwork; `none` encodes
the two early `return { nodes: [], links: [], truncated: false,
matchedCount: 0 }` short circuits. -/
def buildCandidateIds (b : NetworkBuilder) (state : NetworkBuilderState)
    (searchLogic : SearchLogic) : Option (List String) :=
  if 0 < state.searchTerms.length ∧ 0 < state.searchFields.length then
    let seedNodeIds := searchNodes b state.searchTerms state.searchFields searchLogic
    if seedNodeIds.length = 0 then none
    else
      let candidateNodeIds :=
        if 0 < state.expansionDepth then
          let expanded :=
            expandFromSeeds b seedNodeIds state.expansionDepth state.maxNodesPerExpansion
              state.allowedEdgeTypes
          if 0 < state.allowedNodeTypes.length then
            expanded.filter (fun id =>
              match b.allNodes.find? (fun n => n.core.id == id) with
              | none => false
              | some node =>
                  seedNodeIds.contains id ||
                    state.allowedNodeTypes.contains node.core.node_type)
          else expanded
        else seedNodeIds
      let seedsAfterFilter := seedNodeIds.filter (fun id =>
        match b.allNodes.find? (fun n => n.core.id == id) with
        | none => false
        | some node =>
            (state.allowedNodeTypes.length != 0) &&
              state.allowedNodeTypes.contains node.core.node_type)
      if seedsAfterFilter.length = 0 then none
      else
        some (candidateNodeIds.filter (fun id =>
          seedsAfterFilter.contains id || !seedNodeIds.contains id))
  else
    some (b.allNodes.foldl (fun s n => insertUniq s n.core.id) [])

-- ==============================
-- buildNetwork, steps 3 to 8 (filter, truncation, assembly)
-- ==============================

/-- The node-type test of steps 5 and 7: an empty allow-list matches every
type. -/
def typeMatchB (state : NetworkBuilderState) (n : GraphNode) : Bool :=
  (state.allowedNodeTypes.length == 0) ||
    state.allowedNodeTypes.contains n.core.node_type

/-- The forEach/Map.set loops of steps 3 and 7: keep the nodes satisfying p,
keyed by identifier (a later duplicate identifier overwrites the value but
keeps the key position, like Map.set). -/
def buildNodeMap (nodes : List GraphNode) (p : GraphNode → Bool) :
    List (String × GraphNode) :=
  nodes.foldl (fun m n => if p n then mapSet m n.core.id n else m) []

/-- Step 3: candidate node map. -/
def candidateNodeMapOf (b : NetworkBuilder) (cids : List String) :
    List (String × GraphNode) :=
  buildNodeMap b.allNodes (fun n => cids.contains n.core.id)

/-- Step 4: links whose type is in the (strict) edge allow-list and whose two
endpoints are candidates. -/
def candidateLinksOf (b : NetworkBuilder) (state : NetworkBuilderState)
    (cmap : List (String × GraphNode)) : List GraphLink :=
  b.allLinks.filter (fun l =>
    ((state.allowedEdgeTypes.length != 0) && state.allowedEdgeTypes.contains l.edge_type)
      && (mapHas cmap l.source && mapHas cmap l.target))

/-- Step 5 helper: identifiers occurring as an endpoint of a candidate link. -/
def endpointsSet (links : List GraphLink) : List String :=
  links.foldl (fun s l => insertUniq (insertUniq s l.source) l.target) []

/-- Step 5: identifiers of candidate nodes that have at least one surviving
edge and pass the node-type test. -/
def connectedNodeIdsOf (state : NetworkBuilderState) (candidateNodes : List GraphNode)
    (clinks : List GraphLink) : List String :=
  let nodesWithEdges := endpointsSet clinks
  jsSetOf ((candidateNodes.filter
    (fun n => nodesWithEdges.contains n.core.id && typeMatchB state n)).map
      (fun n => n.core.id))

/-- NetworkBuilder.selectTopNodesByDegree: global ranking by snapshot-wide
adjacency degree, stable descending, then the first maxNodes entries. -/
def selectTopNodesByDegree (b : NetworkBuilder) (nodeIds : List String)
    (maxNodes : Nat) : List String :=
  let nodeDegrees := nodeIds.map (fun id => (id, (adjGet b.adjacencyMap id).length))
  ((sortDesc (fun e => e.2) nodeDegrees).take maxNodes).map (fun e => e.1)

/-- The degree-counting forEach loops over a link list (steps 6 and 8). -/
def degreeMapOf (links : List GraphLink) : List (String × Nat) :=
  links.foldl (fun m l => bumpCount (bumpCount m l.source) l.target) []

/-- Step 6, subgraph mode: degree inside the filtered candidate subgraph,
candidates without such an edge excluded, stable descending, first
maxTotalNodes entries. -/
def subgraphTopOf (state : NetworkBuilderState) (connectedIds : List String)
    (clinks : List GraphLink) : List String :=
  let nodeDegrees := degreeMapOf clinks
  (sortDesc (fun id => (mapGet nodeDegrees id).getD 0)
      (connectedIds.filter (fun id => mapHas nodeDegrees id))).take state.maxTotalNodes

/-- Step 6: the node cap. -/
def finalNodeIdsOf (b : NetworkBuilder) (state : NetworkBuilderState) (mode : RankMode)
    (connectedIds : List String) (clinks : List GraphLink) : List String :=
  if state.maxTotalNodes < connectedIds.length then
    if mode = RankMode.subgraph then subgraphTopOf state connectedIds clinks
    else selectTopNodesByDegree b connectedIds state.maxTotalNodes
  else connectedIds

/-- Step 7: the selected node map. -/
def selectedNodeMapOf (b : NetworkBuilder) (state : NetworkBuilderState)
    (finalIds : List String) : List (String × GraphNode) :=
  buildNodeMap b.allNodes (fun n => finalIds.contains n.core.id && typeMatchB state n)

/-- Step 7: final links, re-validated against the selected nodes, rebuilt as
fresh records (endpoints are already bare identifiers here). -/
def finalLinksOf (clinks : List GraphLink) (smap : List (String × GraphNode)) :
    List GraphLink :=
  (clinks.filter (fun l => mapHas smap l.source && mapHas smap l.target)).map
    (fun l => ⟨l.source, l.target, l.action, l.edge_type, l.weight⟩)

/-- The display value `nodeDegree.get(node.id) || 1` : an absent entry (and the impossible
stored zero, which JS also treats as falsy) yields a display value of 1. -/
def valFromDegree (deg : Option Nat) : Int :=
  match deg with
  | some d => if d = 0 then 1 else (d : Int)
  | none => 1

/-- JavaScript Math.round of the exact rational num / den (den positive):
round half toward positive infinity, i.e. floor of (num / den + 1 / 2).  The
float arithmetic of the source is modelled as exact rational arithmetic. -/
def jsRoundFrac (num den : Int) : Int := Int.fdiv (2 * num + den) (2 * den)

/-- One rgb channel of `c1 + (c2 - c1) * t` with `t = v / m`, then
Math.round. -/
def mixChannel (c1 c2 v m : Int) : Int := jsRoundFrac (c1 * m + (c2 - c1) * v) m

def rgbString (r g b : Int) : String :=
  "rgb(" ++ toString r ++ ", " ++ toString g ++ ", " ++ toString b ++ ")"

def sectionColorScale (v m : Int) : String :=
  rgbString (mixChannel 0x9B 0x41 v m) (mixChannel 0x96 0x37 v m) (mixChannel 0xC9 0x8F v m)

def entityConceptColorScale (v m : Int) : String :=
  rgbString (mixChannel 0xF9 0xF0 v m) (mixChannel 0xD9 0xA7 v m) (mixChannel 0x9B 0x34 v m)

/-- The color switch of step 8, at strength t = v / m. -/
def colorForNode (node_type : String) (v m : Int) : String :=
  if node_type = "section" ∨ node_type = "index" then sectionColorScale v m
  else if node_type = "entity" ∨ node_type = "concept" then entityConceptColorScale v m
  else "#AFBBE8"

/-- Step 8 on one node: overwrite val/totalVal from the final-edge degree and
both color fields from the strength gradient. -/
def finalizeNode (nodeDegree : List (String × Nat)) (maxVal : Int) (n : GraphNode) :
    GraphNode :=
  let v := valFromDegree (mapGet nodeDegree n.core.id)
  let c := colorForNode n.core.node_type v maxVal
  { n with val := v, totalVal := v, color := c, baseColor := c }

/-- The bound `Math.max(...nodes.map(n => n.val), 1)` over the freshly assigned display
values. -/
def maxValOf (nodeDegree : List (String × Nat)) (nodes0 : List GraphNode) : Int :=
  (nodes0.map (fun n => valFromDegree (mapGet nodeDegree n.core.id))).foldl max 1

/-- Step 8 on the selected node list. -/
def finalizeNodes (links : List GraphLink) (nodes0 : List GraphNode) : List GraphNode :=
  let nodeDegree := degreeMapOf links
  let maxVal := maxValOf nodeDegree nodes0
  nodes0.map (finalizeNode nodeDegree maxVal)

/-- Step 4 composed over steps 3: candidate links of a candidate id set. -/
def clinksStage (b : NetworkBuilder) (state : NetworkBuilderState) (cids : List String) :
    List GraphLink :=
  candidateLinksOf b state (candidateNodeMapOf b cids)

/-- Step 5 composed over steps 3 and 4. -/
def connectedStage (b : NetworkBuilder) (state : NetworkBuilderState) (cids : List String) :
    List String :=
  connectedNodeIdsOf state (mapValues (candidateNodeMapOf b cids)) (clinksStage b state cids)

/-- Step 6 composed over the previous stages. -/
def finalIdsStage (b : NetworkBuilder) (state : NetworkBuilderState) (mode : RankMode)
    (cids : List String) : List String :=
  finalNodeIdsOf b state mode (connectedStage b state cids) (clinksStage b state cids)

/-- Step 7 node map composed over the previous stages. -/
def smapStage (b : NetworkBuilder) (state : NetworkBuilderState) (mode : RankMode)
    (cids : List String) : List (String × GraphNode) :=
  selectedNodeMapOf b state (finalIdsStage b state mode cids)

/-- Step 7 final links composed over the previous stages. -/
def linksStage (b : NetworkBuilder) (state : NetworkBuilderState) (mode : RankMode)
    (cids : List String) : List GraphLink :=
  finalLinksOf (clinksStage b state cids) (smapStage b state mode cids)

/-- Step 8 final nodes composed over the previous stages. -/
def nodesStage (b : NetworkBuilder) (state : NetworkBuilderState) (mode : RankMode)
    (cids : List String) : List GraphNode :=
  finalizeNodes (linksStage b state mode cids) (mapValues (smapStage b state mode cids))

/-- The node list held by the engine after step 8: the selected node objects
(those satisfying the step 7 insertion condition) have been mutated in place.
Assuming the snapshot invariant of unique node identifiers, under which JS
object aliasing and this positional update coincide, every stored node whose
identifier was selected carries the fresh display fields. -/
def mutatedNodesStage (b : NetworkBuilder) (state : NetworkBuilderState) (mode : RankMode)
    (cids : List String) : List GraphNode :=
  let nodeDegree := degreeMapOf (linksStage b state mode cids)
  let maxVal := maxValOf nodeDegree (mapValues (smapStage b state mode cids))
  b.allNodes.map (fun n =>
    if (finalIdsStage b state mode cids).contains n.core.id && typeMatchB state n then
      finalizeNode nodeDegree maxVal n
    else n)

/-- Steps 3 to 8 of buildNetwork on an already-computed candidate id set.
The second component is the node list of the builder after the call. -/
def assembleNetwork (b : NetworkBuilder) (state : NetworkBuilderState) (mode : RankMode)
    (cids : List String) : FilteredGraph × List GraphNode :=
  (⟨nodesStage b state mode cids, linksStage b state mode cids,
    decide (state.maxTotalNodes < (connectedStage b state cids).length),
    (connectedStage b state cids).length⟩,
   mutatedNodesStage b state mode cids)

/-- NetworkBuilder.buildNetwork together with the node list the engine
instance holds after the call (step 8 mutates the snapshot nodes). -/
def buildNetworkFull (b : NetworkBuilder) (state : NetworkBuilderState)
    (searchLogic : SearchLogic) (nodeRankingMode : RankMode) :
    FilteredGraph × List GraphNode :=
  match buildCandidateIds b state searchLogic with
  | none => (⟨[], [], false, 0⟩, b.allNodes)
  | some cids => assembleNetwork b state nodeRankingMode cids

/-- NetworkBuilder.buildNetwork, the returned FilteredGraph. -/
def buildNetwork (b : NetworkBuilder) (state : NetworkBuilderState)
    (searchLogic : SearchLogic) (nodeRankingMode : RankMode) : FilteredGraph :=
  (buildNetworkFull b state searchLogic nodeRankingMode).1

/-- The engine instance as left behind by one buildNetwork call. -/
def buildNetworkApply (b : NetworkBuilder) (state : NetworkBuilderState)
    (searchLogic : SearchLogic) (nodeRankingMode : RankMode) : NetworkBuilder :=
  { b with allNodes := (buildNetworkFull b state searchLogic nodeRankingMode).2 }

/-- The pre-truncation connected-and-type-filtered count, read off the same
pipeline stages (0 on the two short-circuit paths, which return
matchedCount 0). -/
def preTruncCount (b : NetworkBuilder) (state : NetworkBuilderState)
    (searchLogic : SearchLogic) : Nat :=
  match buildCandidateIds b state searchLogic with
  | none => 0
  | some cids => (connectedStage b state cids).length

/-- How often an identifier occurs as an endpoint in a link list; this is the
count the step 8 degree loop accumulates (a self-loop contributes twice). -/
def countIncidence (links : List GraphLink) (id : String) : Nat :=
  links.foldl
    (fun a l => a + (if l.source = id then 1 else 0) + (if l.target = id then 1 else 0)) 0

/-- The closed set of recognized search fields (the searchFields union type of
interface NetworkBuilderState). -/
def recognizedSearchFields : List String :=
  ["text", "full_name", "display_label", "definition", "entity", "concept", "properties"]

-- ==============================
-- Concrete snapshots used by witnesses and counterexamples
-- ==============================

/-- A node with only identifier, name, type and display label set. -/
def mkNodeD (id name ty : String) (dl : Option String) : GraphNode :=
  ⟨⟨id, name, ty, dl, [], none, none, none, none⟩, 0, 0, "", ""⟩

def mkLinkD (s t et : String) : GraphLink := ⟨s, t, et, et, 1⟩

/-- Demo snapshot: A(section, label alpha) - B(entity, label beta), one
reference edge. -/
def demoNodes : List GraphNode :=
  [mkNodeD "A" "A" "section" (some "alpha"), mkNodeD "B" "B" "entity" (some "beta")]

def demoLinks : List GraphLink := [mkLinkD "A" "B" "reference"]

def demoBuilder : NetworkBuilder := mkNetworkBuilder demoNodes demoLinks

/-- Query with search for beta on display_label, all four node types allowed. -/
def demoQueryAll : NetworkBuilderState :=
  ⟨["beta"], ["display_label"], ["section", "entity", "concept", "index"], ["reference"],
    1, 0, 10⟩

/-- The same query with an empty node-type allow-list. -/
def demoQueryNoTypes : NetworkBuilderState :=
  ⟨["beta"], ["display_label"], [], ["reference"], 1, 0, 10⟩

/-- Query without search and with an empty node-type allow-list. -/
def demoQueryNoSearch : NetworkBuilderState :=
  ⟨[], [], [], ["reference"], 1, 0, 10⟩

/-- Snapshot for the C3 counterexample: A(section) - B(entity), one reference
edge, but only section nodes allowed. -/
def c3Query : NetworkBuilderState :=
  ⟨[], [], ["section"], ["reference"], 1, 0, 10⟩

/-- The node A as it appears in demo results (display degree 1, full
section-scale color). -/
def demoNodeAFinal : GraphNode :=
  ⟨⟨"A", "A", "section", some "alpha", [], none, none, none, none⟩, 1, 1,
    "rgb(65, 55, 143)", "rgb(65, 55, 143)"⟩

/-- The A-B link as rebuilt by the assembly step. -/
def demoLinkABOut : GraphLink := ⟨"A", "B", "reference", "reference", 1⟩

theorem mapGet_nil {α : Type} (k : String) : mapGet ([] : List (String × α)) k = none := rfl

theorem mapGet_cons {α : Type} (k0 : String) (v0 : α) (rest : List (String × α)) (k : String) :
    mapGet ((k0, v0) :: rest) k = if k0 = k then some v0 else mapGet rest k := rfl

theorem mapSet_nil {α : Type} (k : String) (v : α) : mapSet ([] : List (String × α)) k v = [(k, v)] := rfl

theorem mapSet_cons {α : Type} (k0 : String) (v0 : α) (rest : List (String × α)) (k : String) (v : α) :
    mapSet ((k0, v0) :: rest) k v =
      if k0 = k then (k0, v) :: rest else (k0, v0) :: mapSet rest k v := rfl

theorem bumpCount_nil (k : String) : bumpCount [] k = [(k, 1)] := rfl

theorem bumpCount_cons (k0 : String) (v0 : Nat) (rest : List (String × Nat)) (k : String) :
    bumpCount ((k0, v0) :: rest) k =
      if k0 = k then (k0, v0 + 1) :: rest else (k0, v0) :: bumpCount rest k := rfl

theorem contains_eq_mem (l : List String) (x : String) : l.contains x = true ↔ x ∈ l := by
  simp

theorem mem_insertUniq {l : List String} {x y : String} :
    x ∈ insertUniq l y ↔ x ∈ l ∨ x = y := by
  by_cases h : y ∈ l
  · simp only [insertUniq, contains_eq_mem, h, if_true]
    constructor
    · exact fun hx => Or.inl hx
    · rintro (hx | rfl) <;> [exact hx; exact h]
  · simp [insertUniq, contains_eq_mem, h]

theorem nodup_insertUniq {l : List String} {y : String} (h : l.Nodup) :
    (insertUniq l y).Nodup := by
  by_cases hc : y ∈ l
  · simp [insertUniq, contains_eq_mem, hc, h]
  · simp [insertUniq, contains_eq_mem, hc, h, List.nodup_append]

theorem subset_insertUniq (l : List String) (y : String) : l ⊆ insertUniq l y := by
  intro a ha; exact mem_insertUniq.2 (Or.inl ha)

theorem mem_foldl_insertUniq_id (ns : List GraphNode) (acc : List String) (x : String) :
    x ∈ ns.foldl (fun s n => insertUniq s n.core.id) acc ↔
      x ∈ acc ∨ ∃ n ∈ ns, n.core.id = x := by
  induction ns generalizing acc with
  | nil => simp
  | cons a as ih =>
      simp only [List.foldl_cons, ih, mem_insertUniq, List.mem_cons]
      constructor
      · rintro ((hx | rfl) | ⟨n, hn, rfl⟩)
        · exact Or.inl hx
        · exact Or.inr ⟨a, Or.inl rfl, rfl⟩
        · exact Or.inr ⟨n, Or.inr hn, rfl⟩
      · rintro (hx | ⟨n, (rfl | hn), rfl⟩)
        · exact Or.inl (Or.inl hx)
        · exact Or.inl (Or.inr rfl)
        · exact Or.inr ⟨n, hn, rfl⟩

theorem mapGet_mapSet_self {α : Type} (m : List (String × α)) (k : String) (v : α) :
    mapGet (mapSet m k v) k = some v := by
  induction m with
  | nil => simp [mapSet, mapGet]
  | cons e rest ih =>
      by_cases h : e.1 = k
      · simp [mapSet, mapGet, h]
      · simp [mapSet, mapGet, h, ih]

theorem mapGet_mapSet_ne {α : Type} (m : List (String × α)) (k k' : String) (v : α)
    (h : k ≠ k') : mapGet (mapSet m k v) k' = mapGet m k' := by
  induction m with
  | nil => simp [mapSet, mapGet, h]
  | cons e rest ih =>
      by_cases he : e.1 = k
      · subst he; simp [mapSet, mapGet, h, ih]
      · simp only [mapSet, he, if_false]
        by_cases he2 : e.1 = k'
        · simp [mapGet, he2]
        · simp [mapGet, he2, ih]

theorem mapHas_iff_mem_keys {α : Type} (m : List (String × α)) (k : String) :
    mapHas m k = true ↔ k ∈ mapKeys m := by
  induction m with
  | nil => simp [mapHas, mapGet, mapKeys]
  | cons e rest ih =>
      simp only [mapHas, mapGet, mapKeys, List.map_cons, List.mem_cons] at ih ⊢
      by_cases h : e.1 = k
      · simp [h]
      · simp only [h, if_false]
        rw [ih]
        constructor
        · exact fun hh => Or.inr hh
        · rintro (rfl | hh)
          · exact absurd rfl h
          · exact hh

theorem mapKeys_mapSet_mem {α : Type} {m : List (String × α)} {k : String} (v : α)
    (h : k ∈ mapKeys m) : mapKeys (mapSet m k v) = mapKeys m := by
  induction m with
  | nil => simp [mapKeys] at h
  | cons e rest ih =>
      obtain ⟨k0, v0⟩ := e
      by_cases h0 : k0 = k
      · simp [mapSet, mapKeys, h0]
      · simp only [mapKeys, List.map_cons, List.mem_cons] at h
        rcases h with rfl | h
        · exact absurd rfl h0
        · simp only [mapSet, h0, if_false, mapKeys, List.map_cons]
          rw [show List.map (fun e => e.1) (mapSet rest k v) = mapKeys (mapSet rest k v) from rfl,
            ih h]
          rfl

theorem mapKeys_mapSet_notMem {α : Type} {m : List (String × α)} {k : String} (v : α)
    (h : k ∉ mapKeys m) : mapKeys (mapSet m k v) = mapKeys m ++ [k] := by
  induction m with
  | nil => simp [mapSet, mapKeys]
  | cons e rest ih =>
      obtain ⟨k0, v0⟩ := e
      simp only [mapKeys, List.map_cons, List.mem_cons] at h
      push_neg at h
      obtain ⟨h1, h2⟩ := h
      have hne : ¬ (k0 = k) := fun hk => h1 hk.symm
      rw [mapSet_cons, if_neg hne]
      simp only [mapKeys, List.map_cons]
      rw [show List.map (fun e => e.1) (mapSet rest k v) = mapKeys (mapSet rest k v) from rfl,
        ih h2]
      rfl

theorem mem_mapSet {α : Type} {m : List (String × α)} {k : String} {v : α} {e : String × α}
    (h : e ∈ mapSet m k v) : e ∈ m ∨ e = (k, v) := by
  induction m with
  | nil => simpa [mapSet] using h
  | cons e0 rest ih =>
      obtain ⟨k0, v0⟩ := e0
      by_cases h0 : k0 = k
      · simp only [mapSet, if_pos h0, List.mem_cons] at h
        rcases h with rfl | h
        · exact Or.inr (by rw [h0])
        · exact Or.inl (List.mem_cons_of_mem _ h)
      · simp only [mapSet, h0, if_false, List.mem_cons] at h
        rcases h with rfl | h
        · exact Or.inl (List.mem_cons_self _ _)
        · rcases ih h with h | h
          · exact Or.inl (List.mem_cons_of_mem _ h)
          · exact Or.inr h

theorem mapHas_mapSet {α : Type} (m : List (String × α)) (k k' : String) (v : α) :
    mapHas (mapSet m k v) k' = true ↔ k = k' ∨ mapHas m k' = true := by
  by_cases h : k = k'
  · subst h; simp [mapHas, mapGet_mapSet_self]
  · rw [show mapHas (mapSet m k v) k' = mapHas m k' from by
      simp [mapHas, mapGet_mapSet_ne m k k' v h]]
    exact ⟨Or.inr, fun hh => hh.elim (fun hk => absurd hk h) id⟩

theorem buildNodeMap_aux_has (ns : List GraphNode) (p : GraphNode → Bool)
    (acc : List (String × GraphNode)) (k : String) :
    mapHas (ns.foldl (fun m n => if p n then mapSet m n.core.id n else m) acc) k = true ↔
      mapHas acc k = true ∨ ∃ n ∈ ns, n.core.id = k ∧ p n = true := by
  induction ns generalizing acc with
  | nil => simp
  | cons a as ih =>
      simp only [List.foldl_cons, ih, List.mem_cons]
      by_cases hp : p a = true
      · simp only [hp, if_true, mapHas_mapSet]
        constructor
        · rintro ((rfl | hacc) | ⟨n, hn, hid, hpn⟩)
          · exact Or.inr ⟨a, Or.inl rfl, rfl, hp⟩
          · exact Or.inl hacc
          · exact Or.inr ⟨n, Or.inr hn, hid, hpn⟩
        · rintro (hacc | ⟨n, (rfl | hn), hid, hpn⟩)
          · exact Or.inl (Or.inr hacc)
          · exact Or.inl (Or.inl hid)
          · exact Or.inr ⟨n, hn, hid, hpn⟩
      · simp only [hp, if_false]
        constructor
        · rintro (hacc | ⟨n, hn, hid, hpn⟩)
          · exact Or.inl hacc
          · exact Or.inr ⟨n, Or.inr hn, hid, hpn⟩
        · rintro (hacc | ⟨n, (rfl | hn), hid, hpn⟩)
          · exact Or.inl hacc
          · exact absurd hpn hp
          · exact Or.inr ⟨n, hn, hid, hpn⟩

theorem buildNodeMap_has (ns : List GraphNode) (p : GraphNode → Bool) (k : String) :
    mapHas (buildNodeMap ns p) k = true ↔ ∃ n ∈ ns, n.core.id = k ∧ p n = true := by
  rw [buildNodeMap, buildNodeMap_aux_has]
  simp [mapHas, mapGet]

theorem buildNodeMap_aux_mem (ns : List GraphNode) (p : GraphNode → Bool)
    (acc : List (String × GraphNode)) {e : String × GraphNode}
    (h : e ∈ ns.foldl (fun m n => if p n then mapSet m n.core.id n else m) acc) :
    e ∈ acc ∨ (e.2.core.id = e.1 ∧ e.2 ∈ ns ∧ p e.2 = true) := by
  induction ns generalizing acc with
  | nil => exact Or.inl h
  | cons a as ih =>
      simp only [List.foldl_cons] at h
      rcases ih _ h with hacc | ⟨hid, hmem, hpe⟩
      · by_cases hp : p a = true
        · simp only [hp, if_true] at hacc
          rcases mem_mapSet hacc with hacc | rfl
          · exact Or.inl hacc
          · exact Or.inr ⟨rfl, List.mem_cons_self _ _, hp⟩
        · simp only [hp, if_false] at hacc
          exact Or.inl hacc
      · exact Or.inr ⟨hid, List.mem_cons_of_mem _ hmem, hpe⟩

theorem buildNodeMap_mem (ns : List GraphNode) (p : GraphNode → Bool)
    {e : String × GraphNode} (h : e ∈ buildNodeMap ns p) :
    e.2.core.id = e.1 ∧ e.2 ∈ ns ∧ p e.2 = true := by
  rcases buildNodeMap_aux_mem ns p [] h with hacc | hgood
  · simp at hacc
  · exact hgood

theorem nodup_keys_mapSet {α : Type} (m : List (String × α)) (k : String) (v : α)
    (h : (mapKeys m).Nodup) : (mapKeys (mapSet m k v)).Nodup := by
  by_cases hk : k ∈ mapKeys m
  · rw [mapKeys_mapSet_mem v hk]; exact h
  · rw [mapKeys_mapSet_notMem v hk]; simp [List.nodup_append, h, hk]

theorem buildNodeMap_aux_keys_nodup (ns : List GraphNode) (p : GraphNode → Bool)
    (acc : List (String × GraphNode)) (h : (mapKeys acc).Nodup) :
    (mapKeys (ns.foldl (fun m n => if p n then mapSet m n.core.id n else m) acc)).Nodup := by
  induction ns generalizing acc with
  | nil => exact h
  | cons a as ih =>
      simp only [List.foldl_cons]
      by_cases hp : p a = true
      · simp only [hp, if_true]
        exact ih _ (nodup_keys_mapSet _ _ _ h)
      · simp only [hp, if_false]
        exact ih _ h

theorem buildNodeMap_keys_nodup (ns : List GraphNode) (p : GraphNode → Bool) :
    (mapKeys (buildNodeMap ns p)).Nodup :=
  buildNodeMap_aux_keys_nodup ns p [] (by simp [mapKeys])

theorem mem_endpointsSet_aux (ls : List GraphLink) (acc : List String) (x : String) :
    x ∈ ls.foldl (fun s l => insertUniq (insertUniq s l.source) l.target) acc ↔
      x ∈ acc ∨ ∃ l ∈ ls, l.source = x ∨ l.target = x := by
  induction ls generalizing acc with
  | nil => simp
  | cons a as ih =>
      simp only [List.foldl_cons, ih, mem_insertUniq, List.mem_cons]
      constructor
      · rintro (((hx | rfl) | rfl) | ⟨l, hl, hx⟩)
        · exact Or.inl hx
        · exact Or.inr ⟨a, Or.inl rfl, Or.inl rfl⟩
        · exact Or.inr ⟨a, Or.inl rfl, Or.inr rfl⟩
        · exact Or.inr ⟨l, Or.inr hl, hx⟩
      · rintro (hx | ⟨l, (rfl | hl), (hx | hx)⟩)
        · exact Or.inl (Or.inl (Or.inl hx))
        · exact Or.inl (Or.inl (Or.inr hx.symm))
        · exact Or.inl (Or.inr hx.symm)
        · exact Or.inr ⟨l, hl, Or.inl hx⟩
        · exact Or.inr ⟨l, hl, Or.inr hx⟩

theorem mem_endpointsSet (ls : List GraphLink) (x : String) :
    x ∈ endpointsSet ls ↔ ∃ l ∈ ls, l.source = x ∨ l.target = x := by
  rw [endpointsSet, mem_endpointsSet_aux]; simp

theorem mem_jsSetOf_aux (l acc : List String) (x : String) :
    x ∈ l.foldl insertUniq acc ↔ x ∈ acc ∨ x ∈ l := by
  induction l generalizing acc with
  | nil => simp
  | cons a as ih =>
      simp only [List.foldl_cons, ih, mem_insertUniq, List.mem_cons]
      constructor
      · rintro ((hx | rfl) | hx)
        · exact Or.inl hx
        · exact Or.inr (Or.inl rfl)
        · exact Or.inr (Or.inr hx)
      · rintro (hx | (rfl | hx))
        · exact Or.inl (Or.inl hx)
        · exact Or.inl (Or.inr rfl)
        · exact Or.inr hx

theorem mem_jsSetOf (l : List String) (x : String) : x ∈ jsSetOf l ↔ x ∈ l := by
  rw [jsSetOf, mem_jsSetOf_aux]; simp

theorem nodup_foldl_insertUniq (l acc : List String) (h : acc.Nodup) :
    (l.foldl insertUniq acc).Nodup := by
  induction l generalizing acc with
  | nil => exact h
  | cons a as ih => exact ih _ (nodup_insertUniq h)

theorem nodup_jsSetOf (l : List String) : (jsSetOf l).Nodup :=
  nodup_foldl_insertUniq l [] List.nodup_nil

theorem mapGet_bumpCount_self (m : List (String × Nat)) (k : String) :
    mapGet (bumpCount m k) k = some ((mapGet m k).getD 0 + 1) := by
  induction m with
  | nil => simp [bumpCount_nil, mapGet]
  | cons e rest ih =>
      obtain ⟨k0, v0⟩ := e
      by_cases h : k0 = k
      · simp [bumpCount_cons, mapGet_cons, h]
      · simp [bumpCount_cons, mapGet_cons, h, ih]

theorem mapGet_bumpCount_ne (m : List (String × Nat)) (k k' : String) (h : k ≠ k') :
    mapGet (bumpCount m k) k' = mapGet m k' := by
  induction m with
  | nil => simp [bumpCount_nil, mapGet_cons, mapGet_nil, h]
  | cons e rest ih =>
      obtain ⟨k0, v0⟩ := e
      by_cases h0 : k0 = k
      · subst h0; simp [bumpCount_cons, mapGet_cons, h]
      · simp [bumpCount_cons, mapGet_cons, h0, ih]

theorem countIncidence_nil (id : String) : countIncidence [] id = 0 := rfl

theorem countIncidence_aux (ls : List GraphLink) (a : Nat) (id : String) :
    ls.foldl (fun a l =>
        a + (if l.source = id then 1 else 0) + (if l.target = id then 1 else 0)) a =
      a + countIncidence ls id := by
  induction ls generalizing a with
  | nil => simp [countIncidence]
  | cons l rest ih =>
      have h0 : countIncidence (l :: rest) id =
          rest.foldl (fun a l =>
              a + (if l.source = id then 1 else 0) + (if l.target = id then 1 else 0))
            (0 + (if l.source = id then 1 else 0) + (if l.target = id then 1 else 0)) := rfl
      simp only [List.foldl_cons]
      rw [ih, h0, ih]
      omega

theorem countIncidence_cons (l : GraphLink) (ls : List GraphLink) (id : String) :
    countIncidence (l :: ls) id =
      (if l.source = id then 1 else 0) + (if l.target = id then 1 else 0) +
        countIncidence ls id := by
  have h0 : countIncidence (l :: ls) id =
      ls.foldl (fun a l =>
          a + (if l.source = id then 1 else 0) + (if l.target = id then 1 else 0))
        (0 + (if l.source = id then 1 else 0) + (if l.target = id then 1 else 0)) := rfl
  rw [h0, countIncidence_aux]
  omega

theorem countIncidence_pos_iff (ls : List GraphLink) (id : String) :
    0 < countIncidence ls id ↔ ∃ l ∈ ls, l.source = id ∨ l.target = id := by
  induction ls with
  | nil => simp [countIncidence_nil]
  | cons l rest ih =>
      rw [countIncidence_cons]
      constructor
      · intro h
        by_cases hs : l.source = id
        · exact ⟨l, List.mem_cons_self _ _, Or.inl hs⟩
        · by_cases ht : l.target = id
          · exact ⟨l, List.mem_cons_self _ _, Or.inr ht⟩
          · simp only [hs, ht, if_false] at h
            obtain ⟨l2, hl2, hx⟩ := ih.1 (by omega)
            exact ⟨l2, List.mem_cons_of_mem _ hl2, hx⟩
      · rintro ⟨l2, hl2, hx⟩
        rcases List.mem_cons.1 hl2 with rfl | hl2
        · rcases hx with hx | hx <;> simp [hx]
        · have := ih.2 ⟨l2, hl2, hx⟩
          omega

theorem degreeFold_getD (ls : List GraphLink) (m : List (String × Nat)) (k : String) :
    (mapGet (ls.foldl (fun m l => bumpCount (bumpCount m l.source) l.target) m) k).getD 0 =
      (mapGet m k).getD 0 + countIncidence ls k := by
  induction ls generalizing m with
  | nil => simp [countIncidence_nil]
  | cons l rest ih =>
      simp only [List.foldl_cons, ih, countIncidence_cons]
      have step : (mapGet (bumpCount (bumpCount m l.source) l.target) k).getD 0 =
          (mapGet m k).getD 0 +
            ((if l.source = k then 1 else 0) + (if l.target = k then 1 else 0)) := by
        by_cases hs : l.source = k
        · subst hs
          by_cases ht : l.target = l.source
          · rw [ht]
            simp [mapGet_bumpCount_self]
          · rw [mapGet_bumpCount_ne _ _ _ ht, mapGet_bumpCount_self]
            simp [fun h : l.target = l.source => ht h]
        · by_cases ht : l.target = k
          · subst ht
            rw [mapGet_bumpCount_self, mapGet_bumpCount_ne _ _ _ hs]
            simp [hs]
          · rw [mapGet_bumpCount_ne _ _ _ ht, mapGet_bumpCount_ne _ _ _ hs]
            simp [hs, ht]
      rw [step]
      omega

theorem mapHas_bumpCount (m : List (String × Nat)) (k k' : String) :
    mapHas (bumpCount m k) k' = true ↔ k = k' ∨ mapHas m k' = true := by
  by_cases h : k = k'
  · subst h; simp [mapHas, mapGet_bumpCount_self]
  · rw [show mapHas (bumpCount m k) k' = mapHas m k' from by
      simp [mapHas, mapGet_bumpCount_ne m k k' h]]
    exact ⟨Or.inr, fun hh => hh.elim (fun hk => absurd hk h) id⟩

theorem degreeFold_has (ls : List GraphLink) (m : List (String × Nat)) (k : String) :
    mapHas (ls.foldl (fun m l => bumpCount (bumpCount m l.source) l.target) m) k = true ↔
      mapHas m k = true ∨ ∃ l ∈ ls, l.source = k ∨ l.target = k := by
  induction ls generalizing m with
  | nil => simp
  | cons l rest ih =>
      simp only [List.foldl_cons, ih, mapHas_bumpCount, List.mem_cons]
      constructor
      · rintro ((rfl | (rfl | hm)) | ⟨l2, hl2, hx⟩)
        · exact Or.inr ⟨l, Or.inl rfl, Or.inr rfl⟩
        · exact Or.inr ⟨l, Or.inl rfl, Or.inl rfl⟩
        · exact Or.inl hm
        · exact Or.inr ⟨l2, Or.inr hl2, hx⟩
      · rintro (hm | ⟨l2, (rfl | hl2), (hx | hx)⟩)
        · exact Or.inl (Or.inr (Or.inr hm))
        · exact Or.inl (Or.inr (Or.inl hx))
        · exact Or.inl (Or.inl hx)
        · exact Or.inr ⟨l2, hl2, Or.inl hx⟩
        · exact Or.inr ⟨l2, hl2, Or.inr hx⟩

theorem mapGet_degreeMapOf_getD (ls : List GraphLink) (k : String) :
    (mapGet (degreeMapOf ls) k).getD 0 = countIncidence ls k := by
  rw [degreeMapOf, degreeFold_getD]; simp [mapGet]

theorem mapHas_degreeMapOf (ls : List GraphLink) (k : String) :
    mapHas (degreeMapOf ls) k = true ↔ ∃ l ∈ ls, l.source = k ∨ l.target = k := by
  rw [degreeMapOf, degreeFold_has]; simp [mapHas, mapGet]

theorem insertDesc_perm {α : Type} (key : α → Nat) (x : α) (l : List α) :
    (insertDesc key x l).Perm (x :: l) := by
  induction l with
  | nil => simp [insertDesc]
  | cons y ys ih =>
      by_cases h : key x < key y
      · simp only [insertDesc, h, if_true]
        exact (List.Perm.cons y ih).trans (List.Perm.swap x y ys)
      · simp [insertDesc, h]

theorem sortDesc_perm {α : Type} (key : α → Nat) (l : List α) :
    (sortDesc key l).Perm l := by
  induction l with
  | nil => simp [sortDesc]
  | cons x xs ih =>
      exact (insertDesc_perm key x (sortDesc key xs)).trans (List.Perm.cons x ih)

theorem length_sortDesc {α : Type} (key : α → Nat) (l : List α) :
    (sortDesc key l).length = l.length :=
  (sortDesc_perm key l).length_eq

theorem mem_sortDesc {α : Type} (key : α → Nat) (l : List α) (x : α) :
    x ∈ sortDesc key l ↔ x ∈ l :=
  (sortDesc_perm key l).mem_iff

theorem nodup_sortDesc {α : Type} (key : α → Nat) (l : List α) (h : l.Nodup) :
    (sortDesc key l).Nodup :=
  ((sortDesc_perm key l).nodup_iff).2 h

theorem expandVisit_fst_subset (acc : List String × List String) (e : AdjEntry) :
    acc.1 ⊆ (expandVisit acc e).1 := by
  unfold expandVisit
  by_cases h : acc.1.contains e.neighborId = true
  · rw [if_pos h]
    exact fun a ha => ha
  · rw [if_neg h]
    exact fun a ha => List.mem_append_left _ ha

theorem foldl_expandVisit_fst_subset (es : List AdjEntry) (acc : List String × List String) :
    acc.1 ⊆ (es.foldl expandVisit acc).1 := by
  induction es generalizing acc with
  | nil => exact fun a ha => ha
  | cons e rest ih =>
      intro a ha
      simp only [List.foldl_cons]
      exact ih _ (expandVisit_fst_subset acc e ha)

theorem expandNode_fst_subset (b : NetworkBuilder) (maxN : Int) (allowed : List String)
    (acc : List String × List String) (nodeId : String) :
    acc.1 ⊆ (expandNode b maxN allowed acc nodeId).1 :=
  foldl_expandVisit_fst_subset _ acc

theorem expandStep_fst_subset (b : NetworkBuilder) (maxN : Int) (allowed : List String)
    (layer : List String) (expanded : List String) :
    expanded ⊆ (expandStep b maxN allowed layer expanded).1 := by
  rw [expandStep]
  suffices h : ∀ (acc : List String × List String),
      acc.1 ⊆ (layer.foldl (expandNode b maxN allowed) acc).1 from h (expanded, [])
  intro acc
  induction layer generalizing acc with
  | nil => exact fun a ha => ha
  | cons x rest ih =>
      intro a ha
      simp only [List.foldl_cons]
      exact ih _ (expandNode_fst_subset b maxN allowed acc x ha)

theorem expandLoop_fst_subset_succ (b : NetworkBuilder) (maxN : Int) (allowed : List String)
    (d : Nat) (st : List String × List String) :
    (expandLoop b maxN allowed d st).1 ⊆ (expandLoop b maxN allowed (d + 1) st).1 := by
  induction d generalizing st with
  | zero =>
      simp only [expandLoop]
      by_cases h : (expandStep b maxN allowed st.2 st.1).2.length = 0
      · rw [if_pos h]
        exact expandStep_fst_subset b maxN allowed st.2 st.1
      · rw [if_neg h]
        exact expandStep_fst_subset b maxN allowed st.2 st.1
  | succ d ih =>
      show (expandLoop b maxN allowed (d + 1) st).1 ⊆ (expandLoop b maxN allowed (d + 2) st).1
      simp only [expandLoop]
      by_cases h : (expandStep b maxN allowed st.2 st.1).2.length = 0
      · rw [if_pos h, if_pos h]
        exact fun a ha => ha
      · rw [if_neg h, if_neg h]
        exact ih _

theorem mapGet_mem {α : Type} {m : List (String × α)} {k : String} {v : α}
    (h : mapGet m k = some v) : (k, v) ∈ m := by
  induction m with
  | nil => simp [mapGet] at h
  | cons e rest ih =>
      obtain ⟨k0, v0⟩ := e
      by_cases h0 : k0 = k
      · subst h0
        rw [mapGet_cons, if_pos rfl] at h
        injection h with h
        subst h
        exact List.mem_cons_self _ _
      · rw [mapGet_cons, if_neg h0] at h
        exact List.mem_cons_of_mem _ (ih h)

theorem adjAdd_cons (k0 : String) (es0 : List AdjEntry) (rest : List (String × List AdjEntry))
    (k : String) (e : AdjEntry) :
    adjAdd ((k0, es0) :: rest) k e =
      if k0 = k then (k0, es0 ++ [e]) :: rest else (k0, es0) :: adjAdd rest k e := rfl

theorem adjAdd_types {ts : List String} {m : List (String × List AdjEntry)}
    (hm : ∀ p ∈ m, ∀ a ∈ p.2, a.edgeType ∈ ts) {k : String} {e : AdjEntry}
    (he : e.edgeType ∈ ts) : ∀ p ∈ adjAdd m k e, ∀ a ∈ p.2, a.edgeType ∈ ts := by
  induction m with
  | nil =>
      intro p hp a ha
      simp only [adjAdd, List.mem_singleton] at hp
      subst hp
      simp only [List.mem_singleton] at ha
      subst ha
      exact he
  | cons e0 rest ih =>
      obtain ⟨k0, es0⟩ := e0
      intro p hp a ha
      by_cases h0 : k0 = k
      · rw [adjAdd_cons, if_pos h0] at hp
        rcases List.mem_cons.1 hp with rfl | hp
        · rcases List.mem_append.1 ha with ha | ha
          · exact hm (k0, es0) (List.mem_cons_self _ _) a ha
          · simp only [List.mem_singleton] at ha
            subst ha
            exact he
        · exact hm p (List.mem_cons_of_mem _ hp) a ha
      · rw [adjAdd_cons, if_neg h0] at hp
        rcases List.mem_cons.1 hp with rfl | hp
        · exact hm (k0, es0) (List.mem_cons_self _ _) a ha
        · exact ih (fun q hq => hm q (List.mem_cons_of_mem _ hq)) p hp a ha

theorem buildAdjacency_types (ls : List GraphLink) {ts : List String}
    (hls : ∀ l ∈ ls, l.edge_type ∈ ts) :
    ∀ p ∈ buildAdjacency ls, ∀ a ∈ p.2, a.edgeType ∈ ts := by
  rw [buildAdjacency]
  suffices h : ∀ (acc : List (String × List AdjEntry)),
      (∀ p ∈ acc, ∀ a ∈ p.2, a.edgeType ∈ ts) →
      (∀ l ∈ ls, l.edge_type ∈ ts) →
      ∀ p ∈ ls.foldl (fun m l =>
          adjAdd (adjAdd m l.source ⟨l.target, l.edge_type⟩) l.target
            ⟨l.source, l.edge_type⟩) acc, ∀ a ∈ p.2, a.edgeType ∈ ts from
    h [] (by simp) hls
  clear hls
  induction ls with
  | nil => intro acc hacc _ p hp a ha; exact hacc p hp a ha
  | cons l rest ih =>
      intro acc hacc hls p hp a ha
      simp only [List.foldl_cons] at hp
      refine ih _ ?_ (fun l2 hl2 => hls l2 (List.mem_cons_of_mem _ hl2)) p hp a ha
      have hl : l.edge_type ∈ ts := hls l (List.mem_cons_self _ _)
      exact adjAdd_types (adjAdd_types hacc hl) hl

theorem adjGet_types (ls : List GraphLink) {ts : List String}
    (hls : ∀ l ∈ ls, l.edge_type ∈ ts) (k : String) :
    ∀ a ∈ adjGet (buildAdjacency ls) k, a.edgeType ∈ ts := by
  intro a ha
  rw [adjGet] at ha
  cases hg : mapGet (buildAdjacency ls) k with
  | none => rw [hg] at ha; simp at ha
  | some es =>
      rw [hg] at ha
      simp only [Option.getD_some] at ha
      exact buildAdjacency_types ls hls (k, es) (mapGet_mem hg) a ha

theorem expandNode_congr (b2 b1 : NetworkBuilder) (maxN : Int) (A B : List String)
    (h : ∀ id, limitedNeighborsOf b2 maxN A id = limitedNeighborsOf b1 maxN B id)
    (acc : List String × List String) (nodeId : String) :
    expandNode b2 maxN A acc nodeId = expandNode b1 maxN B acc nodeId := by
  rw [expandNode, expandNode, h]

theorem expandStep_congr (b2 b1 : NetworkBuilder) (maxN : Int) (A B : List String)
    (h : ∀ id, limitedNeighborsOf b2 maxN A id = limitedNeighborsOf b1 maxN B id)
    (layer : List String) (expanded : List String) :
    expandStep b2 maxN A layer expanded = expandStep b1 maxN B layer expanded := by
  rw [expandStep, expandStep]
  suffices hs : ∀ acc, layer.foldl (expandNode b2 maxN A) acc =
      layer.foldl (expandNode b1 maxN B) acc from hs _
  intro acc
  induction layer generalizing acc with
  | nil => rfl
  | cons x rest ih =>
      simp only [List.foldl_cons]
      rw [expandNode_congr b2 b1 maxN A B h acc x, ih]

theorem expandLoop_congr (b2 b1 : NetworkBuilder) (maxN : Int) (A B : List String)
    (h : ∀ id, limitedNeighborsOf b2 maxN A id = limitedNeighborsOf b1 maxN B id)
    (d : Nat) (st : List String × List String) :
    expandLoop b2 maxN A d st = expandLoop b1 maxN B d st := by
  induction d generalizing st with
  | zero => rfl
  | succ d ih =>
      simp only [expandLoop]
      rw [expandStep_congr b2 b1 maxN A B h st.2 st.1]
      by_cases hl : (expandStep b1 maxN B st.2 st.1).2.length = 0
      · rw [if_pos hl, if_pos hl]
      · rw [if_neg hl, if_neg hl, ih]

theorem expandFromSeeds_congr (b2 b1 : NetworkBuilder) (maxN : Int) (A B : List String)
    (h : ∀ id, limitedNeighborsOf b2 maxN A id = limitedNeighborsOf b1 maxN B id)
    (seeds : List String) (depth : Nat) :
    expandFromSeeds b2 seeds depth maxN A = expandFromSeeds b1 seeds depth maxN B := by
  rw [expandFromSeeds, expandFromSeeds, expandLoop_congr b2 b1 maxN A B h]

theorem limitedNeighborsOf_empty_allTypes (ns : List GraphNode) (ls : List GraphLink)
    (maxN : Int) (nodeId : String) :
    limitedNeighborsOf (mkNetworkBuilder ns ls) maxN [] nodeId =
      limitedNeighborsOf (mkNetworkBuilder ns ls) maxN (ls.map (fun l => l.edge_type)) nodeId := by
  cases hls : ls with
  | nil => rfl
  | cons l0 rest =>
      have hfilter :
          (adjGet (buildAdjacency (l0 :: rest)) nodeId).filter
              (fun n => ((l0 :: rest).map (fun l => l.edge_type)).contains n.edgeType) =
            adjGet (buildAdjacency (l0 :: rest)) nodeId := by
        rw [List.filter_eq_self]
        intro a ha
        have hmem := adjGet_types (l0 :: rest)
          (fun l (hl : l ∈ l0 :: rest) =>
            (List.mem_map_of_mem (fun l => l.edge_type) hl :
              l.edge_type ∈ (l0 :: rest).map (fun l => l.edge_type)))
          nodeId a ha
        simpa [contains_eq_mem] using hmem
      simp only [limitedNeighborsOf, mkNetworkBuilder, List.length_nil, gt_iff_lt,
        lt_self_iff_false, if_false, List.length_map, List.length_cons, Nat.succ_pos, if_true]
      rw [hfilter]

theorem mem_searchNodes_aux (ns : List GraphNode) (terms fields : List String)
    (logic : SearchLogic) (acc : List String) (x : String) :
    x ∈ ns.foldl (fun matchedIds node =>
        if nodeMatches terms fields logic node then insertUniq matchedIds node.core.id
        else matchedIds) acc ↔
      x ∈ acc ∨ ∃ n ∈ ns, n.core.id = x ∧ nodeMatches terms fields logic n = true := by
  induction ns generalizing acc with
  | nil => simp
  | cons a as ih =>
      simp only [List.foldl_cons, ih, List.mem_cons]
      by_cases hp : nodeMatches terms fields logic a = true
      · simp only [hp, if_true, mem_insertUniq]
        constructor
        · rintro ((hx | rfl) | ⟨n, hn, rfl, hpn⟩)
          · exact Or.inl hx
          · exact Or.inr ⟨a, Or.inl rfl, rfl, hp⟩
          · exact Or.inr ⟨n, Or.inr hn, rfl, hpn⟩
        · rintro (hx | ⟨n, (rfl | hn), rfl, hpn⟩)
          · exact Or.inl (Or.inl hx)
          · exact Or.inl (Or.inr rfl)
          · exact Or.inr ⟨n, hn, rfl, hpn⟩
      · simp only [hp, if_false]
        constructor
        · rintro (hx | ⟨n, hn, rfl, hpn⟩)
          · exact Or.inl hx
          · exact Or.inr ⟨n, Or.inr hn, rfl, hpn⟩
        · rintro (hx | ⟨n, (rfl | hn), rfl, hpn⟩)
          · exact Or.inl hx
          · exact absurd hpn hp
          · exact Or.inr ⟨n, hn, rfl, hpn⟩

theorem mem_searchNodes (b : NetworkBuilder) (terms fields : List String)
    (logic : SearchLogic) (x : String) :
    x ∈ searchNodes b terms fields logic ↔
      ∃ n ∈ b.allNodes, n.core.id = x ∧ nodeMatches terms fields logic n = true := by
  rw [searchNodes, mem_searchNodes_aux]
  simp

theorem nodeMatches_AND_imp_OR (terms fields : List String) (n : GraphNode)
    (hne : terms ≠ []) (h : nodeMatches terms fields SearchLogic.AND n = true) :
    nodeMatches terms fields SearchLogic.OR n = true := by
  simp only [nodeMatches, List.all_eq_true] at h
  simp only [nodeMatches, List.any_eq_true]
  obtain ⟨t, ht⟩ := List.exists_mem_of_ne_nil terms hne
  have hterm := h _ (List.mem_map_of_mem (fun t => strTrim (strToLower t)) ht)
  simp only [List.any_eq_true] at hterm
  exact ⟨strTrim (strToLower t), List.mem_map_of_mem _ ht, hterm⟩

theorem perm_of_nodup_mem_iff {l1 l2 : List String} (h1 : l1.Nodup) (h2 : l2.Nodup)
    (h : ∀ x, x ∈ l1 ↔ x ∈ l2) : l1.Perm l2 := by
  rw [List.perm_iff_count]
  intro a
  by_cases ha : a ∈ l1
  · rw [List.count_eq_one_of_mem h1 ha, List.count_eq_one_of_mem h2 ((h a).1 ha)]
  · rw [List.count_eq_zero_of_not_mem ha,
      List.count_eq_zero_of_not_mem (fun hx => ha ((h a).2 hx))]

theorem connectedStage_nodup (b : NetworkBuilder) (s : NetworkBuilderState)
    (cids : List String) : (connectedStage b s cids).Nodup :=
  nodup_jsSetOf _

theorem mem_connectedStage (b : NetworkBuilder) (s : NetworkBuilderState)
    (cids : List String) (id : String) :
    id ∈ connectedStage b s cids ↔
      ∃ n ∈ mapValues (candidateNodeMapOf b cids), n.core.id = id ∧
        ((endpointsSet (clinksStage b s cids)).contains n.core.id && typeMatchB s n) = true := by
  rw [connectedStage, connectedNodeIdsOf, mem_jsSetOf]
  constructor
  · intro h
    obtain ⟨n, hn, rfl⟩ := List.mem_map.1 h
    obtain ⟨hmem, hp⟩ := List.mem_filter.1 hn
    exact ⟨n, hmem, rfl, hp⟩
  · rintro ⟨n, hmem, rfl, hp⟩
    exact List.mem_map.2 ⟨n, List.mem_filter.2 ⟨hmem, hp⟩, rfl⟩

theorem connectedStage_mem_allNodes (b : NetworkBuilder) (s : NetworkBuilderState)
    (cids : List String) {id : String} (h : id ∈ connectedStage b s cids) :
    ∃ n ∈ b.allNodes, n.core.id = id ∧ typeMatchB s n = true ∧
      (endpointsSet (clinksStage b s cids)).contains id = true := by
  obtain ⟨n, hmem, rfl, hp⟩ := (mem_connectedStage b s cids id).1 h
  obtain ⟨e, he, rfl⟩ := List.mem_map.1 hmem
  obtain ⟨hid, hall, _⟩ := buildNodeMap_mem _ _ he
  simp only [Bool.and_eq_true] at hp
  exact ⟨e.2, hall, rfl, hp.2, hp.1⟩

theorem connectedStage_filter_has (b : NetworkBuilder) (s : NetworkBuilderState)
    (cids : List String) :
    (connectedStage b s cids).filter
        (fun id => mapHas (degreeMapOf (clinksStage b s cids)) id) =
      connectedStage b s cids := by
  rw [List.filter_eq_self]
  intro id hid
  obtain ⟨n, _, rfl, _, hcont⟩ := connectedStage_mem_allNodes b s cids hid
  rw [contains_eq_mem, mem_endpointsSet] at hcont
  exact (mapHas_degreeMapOf _ _).2 hcont

theorem finalIdsStage_subset (b : NetworkBuilder) (s : NetworkBuilderState) (mode : RankMode)
    (cids : List String) : finalIdsStage b s mode cids ⊆ connectedStage b s cids := by
  rw [finalIdsStage, finalNodeIdsOf]
  by_cases h : s.maxTotalNodes < (connectedStage b s cids).length
  · rw [if_pos h]
    by_cases hm : mode = RankMode.subgraph
    · rw [if_pos hm]
      intro x hx
      rw [subgraphTopOf] at hx
      have hx2 := (List.take_sublist _ _).mem hx
      rw [(sortDesc_perm _ _).mem_iff] at hx2
      exact (List.filter_sublist _).mem hx2
    · rw [if_neg hm]
      intro x hx
      rw [selectTopNodesByDegree] at hx
      obtain ⟨p, hp, rfl⟩ := List.mem_map.1 hx
      have hp2 := (List.take_sublist _ _).mem hp
      rw [(sortDesc_perm _ _).mem_iff] at hp2
      obtain ⟨id, hid, heq⟩ := List.mem_map.1 hp2
      rw [← heq]
      exact hid
  · rw [if_neg h]
    exact fun x hx => hx

theorem finalIdsStage_nodup (b : NetworkBuilder) (s : NetworkBuilderState) (mode : RankMode)
    (cids : List String) : (finalIdsStage b s mode cids).Nodup := by
  rw [finalIdsStage, finalNodeIdsOf]
  by_cases h : s.maxTotalNodes < (connectedStage b s cids).length
  · rw [if_pos h]
    by_cases hm : mode = RankMode.subgraph
    · rw [if_pos hm, subgraphTopOf]
      refine List.Nodup.sublist (List.take_sublist _ _) ?_
      refine ((sortDesc_perm _ _).nodup_iff).2 ?_
      exact List.Nodup.sublist (List.filter_sublist _) (connectedStage_nodup b s cids)
    · rw [if_neg hm, selectTopNodesByDegree]
      refine List.Nodup.sublist (List.Sublist.map _ (List.take_sublist _ _)) ?_
      refine (((sortDesc_perm _ _).map _).nodup_iff).2 ?_
      rw [show (List.map (fun e => e.1)
          ((connectedStage b s cids).map (fun id => (id, (adjGet b.adjacencyMap id).length))))
        = connectedStage b s cids from by rw [List.map_map]; exact List.map_id _]
      exact connectedStage_nodup b s cids
  · rw [if_neg h]
    exact connectedStage_nodup b s cids

theorem finalIdsStage_length (b : NetworkBuilder) (s : NetworkBuilderState) (mode : RankMode)
    (cids : List String) :
    (finalIdsStage b s mode cids).length =
      min s.maxTotalNodes (connectedStage b s cids).length := by
  rw [finalIdsStage, finalNodeIdsOf]
  by_cases h : s.maxTotalNodes < (connectedStage b s cids).length
  · rw [if_pos h]
    by_cases hm : mode = RankMode.subgraph
    · rw [if_pos hm, subgraphTopOf, List.length_take, connectedStage_filter_has,
        length_sortDesc]
    · rw [if_neg hm, selectTopNodesByDegree, List.length_map, List.length_take,
        length_sortDesc, List.length_map]
  · rw [if_neg h, Nat.min_eq_right (Nat.le_of_not_lt h)]

theorem smapStage_keys_iff (b : NetworkBuilder) (s : NetworkBuilderState) (mode : RankMode)
    (cids : List String) (k : String) :
    k ∈ mapKeys (smapStage b s mode cids) ↔ k ∈ finalIdsStage b s mode cids := by
  constructor
  · intro hk
    rw [← mapHas_iff_mem_keys] at hk
    obtain ⟨n, _, rfl, hp⟩ := (buildNodeMap_has _ _ _).1 hk
    simp only [Bool.and_eq_true] at hp
    rw [contains_eq_mem] at hp
    exact hp.1
  · intro hk
    have hc := finalIdsStage_subset b s mode cids hk
    obtain ⟨n, hall, rfl, hty, _⟩ := connectedStage_mem_allNodes b s cids hc
    rw [← mapHas_iff_mem_keys]
    refine (buildNodeMap_has _ _ _).2 ⟨n, hall, rfl, ?_⟩
    simp only [Bool.and_eq_true]
    exact ⟨contains_eq_mem _ _ |>.2 hk, hty⟩

theorem smapStage_length (b : NetworkBuilder) (s : NetworkBuilderState) (mode : RankMode)
    (cids : List String) :
    (smapStage b s mode cids).length = (finalIdsStage b s mode cids).length := by
  have hperm := perm_of_nodup_mem_iff (buildNodeMap_keys_nodup b.allNodes _)
    (finalIdsStage_nodup b s mode cids) (smapStage_keys_iff b s mode cids)
  have hlen : (mapKeys (smapStage b s mode cids)).length = (smapStage b s mode cids).length :=
    List.length_map _ _
  rw [← hlen]
  exact hperm.length_eq

theorem finalizeNodes_length (links : List GraphLink) (nodes0 : List GraphNode) :
    (finalizeNodes links nodes0).length = nodes0.length := by
  rw [finalizeNodes]
  exact List.length_map _ _

theorem nodesStage_length (b : NetworkBuilder) (s : NetworkBuilderState) (mode : RankMode)
    (cids : List String) :
    (nodesStage b s mode cids).length = min s.maxTotalNodes (connectedStage b s cids).length := by
  rw [nodesStage, finalizeNodes_length, show (mapValues (smapStage b s mode cids)).length =
    (smapStage b s mode cids).length from List.length_map _ _, smapStage_length,
    finalIdsStage_length]

theorem buildNetworkFull_none {b : NetworkBuilder} {q : NetworkBuilderState}
    {logic : SearchLogic} {mode : RankMode} (h : buildCandidateIds b q logic = none) :
    buildNetworkFull b q logic mode = (⟨[], [], false, 0⟩, b.allNodes) := by
  unfold buildNetworkFull
  rw [h]

theorem buildNetworkFull_some {b : NetworkBuilder} {q : NetworkBuilderState}
    {logic : SearchLogic} {mode : RankMode} {cids : List String}
    (h : buildCandidateIds b q logic = some cids) :
    buildNetworkFull b q logic mode = assembleNetwork b q mode cids := by
  unfold buildNetworkFull
  rw [h]

theorem preTruncCount_none {b : NetworkBuilder} {q : NetworkBuilderState}
    {logic : SearchLogic} (h : buildCandidateIds b q logic = none) :
    preTruncCount b q logic = 0 := by
  unfold preTruncCount
  rw [h]

theorem preTruncCount_some {b : NetworkBuilder} {q : NetworkBuilderState}
    {logic : SearchLogic} {cids : List String} (h : buildCandidateIds b q logic = some cids) :
    preTruncCount b q logic = (connectedStage b q cids).length := by
  unfold preTruncCount
  rw [h]

/-- C5: the truncation flag is set exactly when the pre-truncation
connected-and-type-filtered count exceeds maxTotalNodes, the returned node
count is that count capped at maxTotalNodes (in both ranking modes, the
zero-degree exclusion of subgraph mode being vacuous for connected
candidates), and matchedCount always reports the pre-truncation
connected-and-type-filtered count. -/
theorem claim_C5_truncation (ns : List GraphNode) (ls : List GraphLink)
    (q : NetworkBuilderState) (logic : SearchLogic) (mode : RankMode) :
    (buildNetwork (mkNetworkBuilder ns ls) q logic mode).truncated =
        decide (q.maxTotalNodes <
          (buildNetwork (mkNetworkBuilder ns ls) q logic mode).matchedCount) ∧
      (buildNetwork (mkNetworkBuilder ns ls) q logic mode).nodes.length =
        min q.maxTotalNodes
          (buildNetwork (mkNetworkBuilder ns ls) q logic mode).matchedCount ∧
      (buildNetwork (mkNetworkBuilder ns ls) q logic mode).matchedCount =
        preTruncCount (mkNetworkBuilder ns ls) q logic := by
  cases h : buildCandidateIds (mkNetworkBuilder ns ls) q logic with
  | none =>
      rw [buildNetwork, buildNetworkFull_none h, preTruncCount_none h]
      refine ⟨by simp, by simp, rfl⟩
  | some cids =>
      rw [buildNetwork, buildNetworkFull_some h, preTruncCount_some h]
      refine ⟨rfl, ?_, rfl⟩
      exact nodesStage_length (mkNetworkBuilder ns ls) q mode cids

theorem finalizeNode_core (d : List (String × Nat)) (mv : Int) (n : GraphNode) :
    (finalizeNode d mv n).core = n.core := rfl

theorem finalizeNodes_ids (links : List GraphLink) (nodes0 : List GraphNode) :
    (finalizeNodes links nodes0).map (fun n => n.core.id) =
      nodes0.map (fun n => n.core.id) := by
  rw [finalizeNodes, List.map_map]
  rfl

theorem smap_values_ids (b : NetworkBuilder) (s : NetworkBuilderState) (mode : RankMode)
    (cids : List String) :
    (mapValues (smapStage b s mode cids)).map (fun n => n.core.id) =
      mapKeys (smapStage b s mode cids) := by
  rw [mapValues, mapKeys, List.map_map]
  refine List.map_congr_left ?_
  intro e he
  exact (buildNodeMap_mem _ _ he).1

theorem nodesStage_ids (b : NetworkBuilder) (s : NetworkBuilderState) (mode : RankMode)
    (cids : List String) :
    (nodesStage b s mode cids).map (fun n => n.core.id) =
      mapKeys (smapStage b s mode cids) := by
  rw [nodesStage, finalizeNodes_ids, smap_values_ids]

/-- C6: every link in a buildNetwork result has both endpoint identifiers
among the identifiers of the returned nodes (no dangling edges). -/
theorem claim_C6_no_dangling (ns : List GraphNode) (ls : List GraphLink)
    (q : NetworkBuilderState) (logic : SearchLogic) (mode : RankMode) (l : GraphLink)
    (h : l ∈ (buildNetwork (mkNetworkBuilder ns ls) q logic mode).links) :
    l.source ∈ (buildNetwork (mkNetworkBuilder ns ls) q logic mode).nodes.map
        (fun n => n.core.id) ∧
      l.target ∈ (buildNetwork (mkNetworkBuilder ns ls) q logic mode).nodes.map
        (fun n => n.core.id) := by
  cases hc : buildCandidateIds (mkNetworkBuilder ns ls) q logic with
  | none =>
      rw [buildNetwork, buildNetworkFull_none hc] at h
      simp at h
  | some cids =>
      rw [buildNetwork, buildNetworkFull_some hc] at h ⊢
      rw [show (assembleNetwork (mkNetworkBuilder ns ls) q mode cids).1.links =
        linksStage (mkNetworkBuilder ns ls) q mode cids from rfl, linksStage,
        finalLinksOf] at h
      obtain ⟨l0, hl0, rfl⟩ := List.mem_map.1 h
      obtain ⟨hl0c, hp⟩ := List.mem_filter.1 hl0
      simp only [Bool.and_eq_true] at hp
      rw [show (assembleNetwork (mkNetworkBuilder ns ls) q mode cids).1.nodes =
        nodesStage (mkNetworkBuilder ns ls) q mode cids from rfl, nodesStage, finalizeNodes_ids,
        smap_values_ids]
      exact ⟨(mapHas_iff_mem_keys _ _).1 hp.1, (mapHas_iff_mem_keys _ _).1 hp.2⟩

theorem valFromDegree_eq_count (links : List GraphLink) (k : String) :
    valFromDegree (mapGet (degreeMapOf links) k) =
      if countIncidence links k = 0 then 1 else (countIncidence links k : Int) := by
  have hd := mapGet_degreeMapOf_getD links k
  cases hg : mapGet (degreeMapOf links) k with
  | none =>
      rw [hg] at hd
      simp only [Option.getD_none] at hd
      rw [valFromDegree, ← hd]
      simp
  | some d =>
      rw [hg] at hd
      simp only [Option.getD_some] at hd
      rw [valFromDegree, ← hd]

theorem one_le_valFromDegree (o : Option Nat) : 1 ≤ valFromDegree o := by
  cases o with
  | none => exact le_refl 1
  | some d =>
      rw [valFromDegree]
      by_cases h : d = 0
      · simp [h]
      · simp only [h, if_false]
        exact_mod_cast Nat.one_le_iff_ne_zero.2 h

/-- C10: every returned node carries val equal to its incidence count in the
returned link list (the count the step 8 loop computes, a self-loop counting
twice) when that count is positive, and val 1 when it has no incident link;
in particular val is always at least 1. -/
theorem claim_C10_display_degree (ns : List GraphNode) (ls : List GraphLink)
    (q : NetworkBuilderState) (logic : SearchLogic) (mode : RankMode) (n : GraphNode)
    (h : n ∈ (buildNetwork (mkNetworkBuilder ns ls) q logic mode).nodes) :
    n.val = (if countIncidence (buildNetwork (mkNetworkBuilder ns ls) q logic mode).links
          n.core.id = 0 then 1
      else (countIncidence (buildNetwork (mkNetworkBuilder ns ls) q logic mode).links
          n.core.id : Int)) ∧
    1 ≤ n.val := by
  cases hc : buildCandidateIds (mkNetworkBuilder ns ls) q logic with
  | none =>
      rw [buildNetwork, buildNetworkFull_none hc] at h
      simp at h
  | some cids =>
      rw [buildNetwork, buildNetworkFull_some hc] at h ⊢
      rw [show (assembleNetwork (mkNetworkBuilder ns ls) q mode cids).1.nodes =
        nodesStage (mkNetworkBuilder ns ls) q mode cids from rfl] at h
      simp only [nodesStage, finalizeNodes] at h
      obtain ⟨n0, hn0, rfl⟩ := List.mem_map.1 h
      rw [show (assembleNetwork (mkNetworkBuilder ns ls) q mode cids).1.links =
        linksStage (mkNetworkBuilder ns ls) q mode cids from rfl]
      constructor
      · exact valFromDegree_eq_count _ _
      · exact one_le_valFromDegree _

/-- C8: bounded-depth expansion is monotone in the depth: any identifier in
the expansion at depth d is still there at depth d + 1, all other arguments
held fixed. -/
theorem claim_C8_depth_monotone (ns : List GraphNode) (ls : List GraphLink)
    (seeds : List String) (d : Nat) (maxN : Int) (allowed : List String) (x : String)
    (h : x ∈ expandFromSeeds (mkNetworkBuilder ns ls) seeds d maxN allowed) :
    x ∈ expandFromSeeds (mkNetworkBuilder ns ls) seeds (d + 1) maxN allowed := by
  rw [expandFromSeeds] at h ⊢
  exact expandLoop_fst_subset_succ (mkNetworkBuilder ns ls) maxN allowed d _ h

/-- C8 witness at a concrete input. -/
theorem claim_C8_depth_monotone_witness :
    "B" ∈ expandFromSeeds demoBuilder ["A"] 1 0 [] ∧
      "B" ∈ expandFromSeeds demoBuilder ["A"] 2 0 [] :=
  ⟨by decide, claim_C8_depth_monotone demoNodes demoLinks ["A"] 1 0 [] "B" (by decide)⟩

/-- C9: with at least one search term, a node matched under AND logic is also
matched under OR logic, so the AND match set is a subset of the OR match set. -/
theorem claim_C9_and_subset_or (ns : List GraphNode) (ls : List GraphLink)
    (terms fields : List String) (x : String) (hne : terms ≠ [])
    (h : x ∈ searchNodes (mkNetworkBuilder ns ls) terms fields SearchLogic.AND) :
    x ∈ searchNodes (mkNetworkBuilder ns ls) terms fields SearchLogic.OR := by
  rw [mem_searchNodes] at h ⊢
  obtain ⟨n, hn, rfl, hm⟩ := h
  exact ⟨n, hn, rfl, nodeMatches_AND_imp_OR terms fields n hne hm⟩

/-- C9 witness at a concrete input. -/
theorem claim_C9_and_subset_or_witness :
    (["beta"] : List String) ≠ [] ∧
      "B" ∈ searchNodes demoBuilder ["beta"] ["display_label"] SearchLogic.AND ∧
      "B" ∈ searchNodes demoBuilder ["beta"] ["display_label"] SearchLogic.OR :=
  ⟨by decide, by decide,
    claim_C9_and_subset_or demoNodes demoLinks ["beta"] ["display_label"] "B"
      (by decide) (by decide)⟩

/-- C2 counterexample: with an empty allowedEdgeTypes list, expandFromSeeds
does add neighbors (the empty list disables the filter instead of forbidding
every edge), so the returned set is strictly larger than the seed set. -/
theorem claim_C2_counterexample :
    expandFromSeeds demoBuilder ["A"] 1 0 [] = ["A", "B"] ∧
      expandFromSeeds demoBuilder ["A"] 1 0 [] ≠ ["A"] := by
  constructor
  · decide
  · decide

/-- C2 amended: an empty allowedEdgeTypes list is treated as no filter at
all, so the expansion equals the one obtained by allowing every edge type
occurring in the snapshot. -/
theorem claim_C2_amended_no_filter (ns : List GraphNode) (ls : List GraphLink)
    (seeds : List String) (d : Nat) (maxN : Int) :
    expandFromSeeds (mkNetworkBuilder ns ls) seeds d maxN [] =
      expandFromSeeds (mkNetworkBuilder ns ls) seeds d maxN
        (ls.map (fun l => l.edge_type)) :=
  expandFromSeeds_congr (mkNetworkBuilder ns ls) (mkNetworkBuilder ns ls) maxN []
    (ls.map (fun l => l.edge_type)) (limitedNeighborsOf_empty_allTypes ns ls maxN) seeds d

theorem typeMatchB_empty {s : NetworkBuilderState} (hq : s.allowedNodeTypes = [])
    (n : GraphNode) : typeMatchB s n = true := by
  simp [typeMatchB, hq]

/-- C1: on the demo snapshot, a seed-yielding search with an empty node-type
allow-list is short-circuited to the empty result by the seed re-filter (the
filter requires a non-empty allow-list), while the identical query with all
four node types allowed returns the non-empty two-node network; the code thus
contradicts the specified empty-list-matches-all-types behavior. -/
theorem claim_C1_code_divergence :
    buildNetwork demoBuilder demoQueryNoTypes SearchLogic.OR RankMode.global =
        ⟨[], [], false, 0⟩ ∧
      (buildNetwork demoBuilder demoQueryAll SearchLogic.OR RankMode.global).nodes.map
          (fun n => n.core.id) = ["A", "B"] ∧
      (buildNetwork demoBuilder demoQueryAll SearchLogic.OR RankMode.global).matchedCount
        = 2 := by
  refine ⟨by decide, by decide, by decide⟩

/-- C3 counterexample: a non-empty result in which a returned node has no
incident link in the returned link list (node B fails the node-type
allow-list, so the only link of node A is dropped while A itself survives). -/
theorem claim_C3_counterexample :
    (buildNetwork demoBuilder c3Query SearchLogic.OR RankMode.global).nodes ≠ [] ∧
      ¬ (∀ n ∈ (buildNetwork demoBuilder c3Query SearchLogic.OR RankMode.global).nodes,
          ∃ l ∈ (buildNetwork demoBuilder c3Query SearchLogic.OR RankMode.global).links,
            l.source = n.core.id ∨ l.target = n.core.id) := by
  refine ⟨by decide, by decide⟩

/-- C4 counterexample: buildNetwork mutates the snapshot nodes in place; on
the demo snapshot the stored val fields change from 0 to the recomputed
display degree 1. -/
theorem claim_C4_counterexample :
    ((buildNetworkFull demoBuilder demoQueryNoSearch SearchLogic.OR RankMode.global).2).map
        (fun n => n.val) ≠
      demoBuilder.allNodes.map (fun n => n.val) := by
  decide

theorem mutatedNodes_cores (b : NetworkBuilder) (s : NetworkBuilderState) (mode : RankMode)
    (cids : List String) :
    (mutatedNodesStage b s mode cids).map GraphNode.core = b.allNodes.map GraphNode.core := by
  simp only [mutatedNodesStage]
  rw [List.map_map]
  refine List.map_congr_left ?_
  intro n hn
  simp only [Function.comp_apply]
  by_cases h : ((finalIdsStage b s mode cids).contains n.core.id && typeMatchB s n) = true
  · rw [if_pos h]
    rfl
  · rw [if_neg h]

theorem buildNetworkFull_snd_cores (b : NetworkBuilder) (q : NetworkBuilderState)
    (logic : SearchLogic) (mode : RankMode) :
    ((buildNetworkFull b q logic mode).2).map GraphNode.core =
      b.allNodes.map GraphNode.core := by
  cases hc : buildCandidateIds b q logic with
  | none => rw [buildNetworkFull_none hc]
  | some cids =>
      rw [buildNetworkFull_some hc]
      exact mutatedNodes_cores b q mode cids

/-- C4 amended: buildNetwork never touches the link list or the adjacency
index of the engine, and it preserves the read-only core of every stored node
(identifier, name, type, labels, property bag and text fields) and the node
count, but it does overwrite the display fields (val, totalVal, color,
baseColor) of the selected nodes in place, so the snapshot is not left
completely unchanged. -/
theorem claim_C4_amended_core_frame (ns : List GraphNode) (ls : List GraphLink)
    (q : NetworkBuilderState) (logic : SearchLogic) (mode : RankMode) :
    (buildNetworkApply (mkNetworkBuilder ns ls) q logic mode).allLinks = ls ∧
      (buildNetworkApply (mkNetworkBuilder ns ls) q logic mode).adjacencyMap =
        buildAdjacency ls ∧
      ((buildNetworkApply (mkNetworkBuilder ns ls) q logic mode).allNodes).map
          GraphNode.core = ns.map GraphNode.core := by
  refine ⟨rfl, rfl, ?_⟩
  exact buildNetworkFull_snd_cores (mkNetworkBuilder ns ls) q logic mode

theorem mapHas_exists_entry {α : Type} {m : List (String × α)} {k : String}
    (h : mapHas m k = true) : ∃ v, (k, v) ∈ m := by
  rw [mapHas] at h
  cases hg : mapGet m k with
  | none => rw [hg] at h; simp at h
  | some v => exact ⟨v, mapGet_mem hg⟩

/-- C3 amended: when no truncation happened and the node-type allow-list is
empty (so no endpoint of a surviving candidate link can be dropped by the
type filter), every node of a buildNetwork result has at least one incident
link in the returned link list.  With a non-empty type allow-list, or with
truncation, a returned node can be left without any incident link. -/
theorem claim_C3_amended_connected (ns : List GraphNode) (ls : List GraphLink)
    (q : NetworkBuilderState) (logic : SearchLogic) (mode : RankMode) (n : GraphNode)
    (hq : q.allowedNodeTypes = [])
    (ht : (buildNetwork (mkNetworkBuilder ns ls) q logic mode).truncated = false)
    (h : n ∈ (buildNetwork (mkNetworkBuilder ns ls) q logic mode).nodes) :
    ∃ l ∈ (buildNetwork (mkNetworkBuilder ns ls) q logic mode).links,
      l.source = n.core.id ∨ l.target = n.core.id := by
  cases hc : buildCandidateIds (mkNetworkBuilder ns ls) q logic with
  | none =>
      rw [buildNetwork, buildNetworkFull_none hc] at h
      simp at h
  | some cids =>
      rw [buildNetwork, buildNetworkFull_some hc] at h ht ⊢
      set b := mkNetworkBuilder ns ls with hb
      have hlt : ¬ (q.maxTotalNodes < (connectedStage b q cids).length) := by
        intro hcontra
        rw [show (assembleNetwork b q mode cids).1.truncated =
          decide (q.maxTotalNodes < (connectedStage b q cids).length) from rfl] at ht
        rw [decide_eq_true hcontra] at ht
        simp at ht
      have hfin : finalIdsStage b q mode cids = connectedStage b q cids := by
        rw [finalIdsStage, finalNodeIdsOf, if_neg hlt]
      -- every endpoint of a surviving candidate link is selected
      have hsel : ∀ x : String,
          (∃ l2 ∈ clinksStage b q cids, l2.source = x ∨ l2.target = x) →
          mapHas (smapStage b q mode cids) x = true := by
        intro x hx
        obtain ⟨l2, hl2, hxend⟩ := hx
        have hhas : mapHas (candidateNodeMapOf b cids) x = true := by
          rw [clinksStage, candidateLinksOf] at hl2
          obtain ⟨_, hp⟩ := List.mem_filter.1 hl2
          simp only [Bool.and_eq_true] at hp
          rcases hxend with rfl | rfl
          · exact hp.2.1
          · exact hp.2.2
        obtain ⟨vx, hvx⟩ := mapHas_exists_entry hhas
        obtain ⟨hvid, hvall, _⟩ := buildNodeMap_mem _ _ hvx
        have hxconn : x ∈ connectedStage b q cids := by
          refine (mem_connectedStage b q cids x).2 ?_
          refine ⟨vx, List.mem_map.2 ⟨(x, vx), hvx, rfl⟩, hvid, ?_⟩
          simp only [Bool.and_eq_true]
          refine ⟨?_, typeMatchB_empty hq vx⟩
          rw [hvid, contains_eq_mem, mem_endpointsSet]
          exact ⟨l2, hl2, hxend⟩
        exact (mapHas_iff_mem_keys _ _).2
          ((smapStage_keys_iff b q mode cids x).2 (by rw [hfin]; exact hxconn))
      -- unpack the returned node
      rw [show (assembleNetwork b q mode cids).1.nodes = nodesStage b q mode cids
        from rfl] at h
      simp only [nodesStage, finalizeNodes] at h
      obtain ⟨n0, hn0, rfl⟩ := List.mem_map.1 h
      obtain ⟨e, he, rfl⟩ := List.mem_map.1 hn0
      obtain ⟨hid, _, hpe⟩ := buildNodeMap_mem _ _ he
      simp only [Bool.and_eq_true] at hpe
      rw [contains_eq_mem] at hpe
      have hconn : e.2.core.id ∈ connectedStage b q cids := by
        rw [← hfin]
        exact hpe.1
      obtain ⟨m, _, hmid, _, hcont⟩ := connectedStage_mem_allNodes b q cids hconn
      rw [contains_eq_mem, mem_endpointsSet] at hcont
      obtain ⟨l, hl, hend⟩ := hcont
      refine ⟨⟨l.source, l.target, l.action, l.edge_type, l.weight⟩, ?_, ?_⟩
      · rw [show (assembleNetwork b q mode cids).1.links = linksStage b q mode cids
          from rfl, linksStage, finalLinksOf]
        refine List.mem_map.2 ⟨l, List.mem_filter.2 ⟨hl, ?_⟩, rfl⟩
        have hs := hsel l.source ⟨l, hl, Or.inl rfl⟩
        have ht2 := hsel l.target ⟨l, hl, Or.inr rfl⟩
        simp [hs, ht2]
      · rcases hend with hx | hx
        · exact Or.inl hx
        · exact Or.inr hx

/-- C3 amended witness at a concrete input. -/
theorem claim_C3_amended_connected_witness :
    demoQueryNoSearch.allowedNodeTypes = [] ∧
      (buildNetwork demoBuilder demoQueryNoSearch SearchLogic.OR RankMode.global).truncated
        = false ∧
      demoNodeAFinal
        ∈ (buildNetwork demoBuilder demoQueryNoSearch SearchLogic.OR RankMode.global).nodes ∧
      (∃ l ∈ (buildNetwork demoBuilder demoQueryNoSearch SearchLogic.OR
          RankMode.global).links, l.source = demoNodeAFinal.core.id ∨
            l.target = demoNodeAFinal.core.id) :=
  ⟨rfl, by decide, by decide,
    claim_C3_amended_connected demoNodes demoLinks demoQueryNoSearch SearchLogic.OR
      RankMode.global demoNodeAFinal rfl (by decide) (by decide)⟩

/-- C6 witness at a concrete input. -/
theorem claim_C6_no_dangling_witness :
    demoLinkABOut
        ∈ (buildNetwork demoBuilder demoQueryAll SearchLogic.OR RankMode.global).links ∧
      (demoLinkABOut.source ∈ (buildNetwork demoBuilder demoQueryAll SearchLogic.OR
            RankMode.global).nodes.map (fun n => n.core.id) ∧
        demoLinkABOut.target ∈ (buildNetwork demoBuilder demoQueryAll SearchLogic.OR
            RankMode.global).nodes.map (fun n => n.core.id)) :=
  ⟨by decide,
    claim_C6_no_dangling demoNodes demoLinks demoQueryAll SearchLogic.OR RankMode.global
      demoLinkABOut (by decide)⟩

/-- C10 witness at a concrete input. -/
theorem claim_C10_display_degree_witness :
    demoNodeAFinal
        ∈ (buildNetwork demoBuilder demoQueryAll SearchLogic.OR RankMode.global).nodes ∧
      (demoNodeAFinal.val =
          (if countIncidence (buildNetwork demoBuilder demoQueryAll SearchLogic.OR
                RankMode.global).links demoNodeAFinal.core.id = 0 then 1
            else (countIncidence (buildNetwork demoBuilder demoQueryAll SearchLogic.OR
                RankMode.global).links demoNodeAFinal.core.id : Int)) ∧
        1 ≤ demoNodeAFinal.val) :=
  ⟨by decide,
    claim_C10_display_degree demoNodes demoLinks demoQueryAll SearchLogic.OR RankMode.global
      demoNodeAFinal (by decide)⟩

theorem forall₂_core_of_map_eq {ns2 ns1 : List GraphNode}
    (h : ns2.map GraphNode.core = ns1.map GraphNode.core) :
    List.Forall₂ (fun a b => a.core = b.core) ns2 ns1 := by
  induction ns2 generalizing ns1 with
  | nil =>
      cases ns1 with
      | nil => exact List.Forall₂.nil
      | cons b bs => simp at h
  | cons a as ih =>
      cases ns1 with
      | nil => simp at h
      | cons b bs =>
          simp only [List.map_cons, List.cons.injEq] at h
          exact List.Forall₂.cons h.1 (ih h.2)

theorem searchFieldStep_core_congr {a b : GraphNode} (hab : a.core = b.core)
    {f : String} (hf : f ∈ recognizedSearchFields) (acc : List String) :
    searchFieldStep a acc f = searchFieldStep b acc f := by
  fin_cases hf <;> simp [searchFieldStep, hab]

theorem searchableValuesFor_core_congr {a b : GraphNode} (hab : a.core = b.core)
    {fields : List String} (hf : ∀ f ∈ fields, f ∈ recognizedSearchFields) :
    searchableValuesFor a fields = searchableValuesFor b fields := by
  rw [searchableValuesFor, searchableValuesFor]
  suffices hs : ∀ acc, fields.foldl (searchFieldStep a) acc =
      fields.foldl (searchFieldStep b) acc from hs []
  intro acc
  induction fields generalizing acc with
  | nil => rfl
  | cons f fs ih =>
      simp only [List.foldl_cons]
      rw [searchFieldStep_core_congr hab (hf f (List.mem_cons_self _ _)) acc]
      exact ih (fun g hg => hf g (List.mem_cons_of_mem _ hg)) _

theorem nodeMatches_core_congr {a b : GraphNode} (hab : a.core = b.core)
    (terms : List String) {fields : List String}
    (hf : ∀ f ∈ fields, f ∈ recognizedSearchFields) (logic : SearchLogic) :
    nodeMatches terms fields logic a = nodeMatches terms fields logic b := by
  cases logic <;>
    · simp only [nodeMatches]
      rw [searchableValuesFor_core_congr hab hf]

theorem searchNodes_core_congr {ns2 ns1 : List GraphNode}
    (h : List.Forall₂ (fun a b => a.core = b.core) ns2 ns1)
    (ls : List GraphLink) (adj : List (String × List AdjEntry))
    (terms : List String) {fields : List String}
    (hf : ∀ f ∈ fields, f ∈ recognizedSearchFields) (logic : SearchLogic) :
    searchNodes ⟨ns2, ls, adj⟩ terms fields logic =
      searchNodes ⟨ns1, ls, adj⟩ terms fields logic := by
  rw [searchNodes, searchNodes]
  show ns2.foldl _ [] = ns1.foldl _ []
  suffices hs : ∀ acc, ns2.foldl (fun matchedIds node =>
      if nodeMatches terms fields logic node then insertUniq matchedIds node.core.id
      else matchedIds) acc = ns1.foldl (fun matchedIds node =>
      if nodeMatches terms fields logic node then insertUniq matchedIds node.core.id
      else matchedIds) acc from hs []
  intro acc
  induction h generalizing acc with
  | nil => rfl
  | cons hab htl ih =>
      rename_i a b l1 l2
      simp only [List.foldl_cons]
      rw [nodeMatches_core_congr hab terms hf logic]
      have hid : a.core.id = b.core.id := by rw [hab]
      by_cases hm : nodeMatches terms fields logic b = true
      · rw [if_pos hm, if_pos hm, hid]
        exact ih _
      · rw [if_neg hm, if_neg hm]
        exact ih _

theorem find?_core_congr {ns2 ns1 : List GraphNode}
    (h : List.Forall₂ (fun a b => a.core = b.core) ns2 ns1) (id : String) :
    (ns2.find? (fun n => n.core.id == id)).map GraphNode.core =
      (ns1.find? (fun n => n.core.id == id)).map GraphNode.core := by
  induction h with
  | nil => rfl
  | cons hab htl ih =>
      rename_i a b l1 l2
      have hid : (a.core.id == id) = (b.core.id == id) := by rw [hab]
      simp only [List.find?_cons]
      rw [hid]
      cases hbv : (b.core.id == id) with
      | true =>
          show some a.core = some b.core
          rw [hab]
      | false => exact ih

theorem allIds_core_congr {ns2 ns1 : List GraphNode}
    (h : List.Forall₂ (fun a b => a.core = b.core) ns2 ns1) :
    ns2.foldl (fun s n => insertUniq s n.core.id) [] =
      ns1.foldl (fun s n => insertUniq s n.core.id) [] := by
  suffices hs : ∀ acc : List String, ns2.foldl (fun s n => insertUniq s n.core.id) acc =
      ns1.foldl (fun s n => insertUniq s n.core.id) acc from hs []
  intro acc
  induction h generalizing acc with
  | nil => rfl
  | cons hab htl ih =>
      rename_i a b l1 l2
      simp only [List.foldl_cons]
      rw [show a.core.id = b.core.id from by rw [hab]]
      exact ih _

theorem buildCandidateIds_core_congr {ns2 ns1 : List GraphNode}
    (hcore : ns2.map GraphNode.core = ns1.map GraphNode.core)
    (ls : List GraphLink) (adj : List (String × List AdjEntry))
    (q : NetworkBuilderState) (logic : SearchLogic)
    (hf : ∀ f ∈ q.searchFields, f ∈ recognizedSearchFields) :
    buildCandidateIds ⟨ns2, ls, adj⟩ q logic = buildCandidateIds ⟨ns1, ls, adj⟩ q logic := by
  have h := forall₂_core_of_map_eq hcore
  rw [buildCandidateIds, buildCandidateIds]
  by_cases hcond : 0 < q.searchTerms.length ∧ 0 < q.searchFields.length
  · rw [if_pos hcond, if_pos hcond]
    rw [searchNodes_core_congr h ls adj q.searchTerms hf logic]
    set seeds := searchNodes ⟨ns1, ls, adj⟩ q.searchTerms q.searchFields logic with hseeds
    by_cases hlen : seeds.length = 0
    · rw [if_pos hlen, if_pos hlen]
    · rw [if_neg hlen, if_neg hlen]
      have hfindeq : ∀ p : NodeCore → Bool, ∀ id : String,
          (match ns2.find? (fun n => n.core.id == id) with
            | none => false
            | some node => p node.core) =
          (match ns1.find? (fun n => n.core.id == id) with
            | none => false
            | some node => p node.core) := by
        intro p id
        have hfc := find?_core_congr h id
        cases h2 : ns2.find? (fun n => n.core.id == id) with
        | none =>
            cases h1 : ns1.find? (fun n => n.core.id == id) with
            | none => rfl
            | some m => rw [h2, h1] at hfc; simp at hfc
        | some m2 =>
            cases h1 : ns1.find? (fun n => n.core.id == id) with
            | none => rw [h2, h1] at hfc; simp at hfc
            | some m1 =>
                rw [h2, h1] at hfc
                have hfc2 : m2.core = m1.core := Option.some.inj hfc
                show p m2.core = p m1.core
                rw [hfc2]
      have hexp : expandFromSeeds (⟨ns2, ls, adj⟩ : NetworkBuilder) seeds q.expansionDepth
            q.maxNodesPerExpansion q.allowedEdgeTypes =
          expandFromSeeds (⟨ns1, ls, adj⟩ : NetworkBuilder) seeds q.expansionDepth
            q.maxNodesPerExpansion q.allowedEdgeTypes :=
        expandFromSeeds_congr ⟨ns2, ls, adj⟩ ⟨ns1, ls, adj⟩ q.maxNodesPerExpansion
          q.allowedEdgeTypes q.allowedEdgeTypes (fun _ => rfl) seeds q.expansionDepth
      have hcand :
          (if 0 < q.expansionDepth then
            (if 0 < q.allowedNodeTypes.length then
              (expandFromSeeds (⟨ns2, ls, adj⟩ : NetworkBuilder) seeds q.expansionDepth
                  q.maxNodesPerExpansion q.allowedEdgeTypes).filter (fun id =>
                match (ns2).find? (fun n => n.core.id == id) with
                | none => false
                | some node => seeds.contains id ||
                    q.allowedNodeTypes.contains node.core.node_type)
            else expandFromSeeds (⟨ns2, ls, adj⟩ : NetworkBuilder) seeds q.expansionDepth
              q.maxNodesPerExpansion q.allowedEdgeTypes)
          else seeds) =
          (if 0 < q.expansionDepth then
            (if 0 < q.allowedNodeTypes.length then
              (expandFromSeeds (⟨ns1, ls, adj⟩ : NetworkBuilder) seeds q.expansionDepth
                  q.maxNodesPerExpansion q.allowedEdgeTypes).filter (fun id =>
                match (ns1).find? (fun n => n.core.id == id) with
                | none => false
                | some node => seeds.contains id ||
                    q.allowedNodeTypes.contains node.core.node_type)
            else expandFromSeeds (⟨ns1, ls, adj⟩ : NetworkBuilder) seeds q.expansionDepth
              q.maxNodesPerExpansion q.allowedEdgeTypes)
          else seeds) := by
        by_cases hd : 0 < q.expansionDepth
        · rw [if_pos hd, if_pos hd, hexp]
          by_cases hnt : 0 < q.allowedNodeTypes.length
          · rw [if_pos hnt, if_pos hnt]
            refine List.filter_congr ?_
            intro id _
            exact hfindeq (fun c => seeds.contains id ||
              q.allowedNodeTypes.contains c.node_type) id
          · rw [if_neg hnt, if_neg hnt]
        · rw [if_neg hd, if_neg hd]
      rw [hcand]
      have hseedsf : seeds.filter (fun id =>
          match ns2.find? (fun n => n.core.id == id) with
          | none => false
          | some node => (q.allowedNodeTypes.length != 0) &&
              q.allowedNodeTypes.contains node.core.node_type) =
          seeds.filter (fun id =>
          match ns1.find? (fun n => n.core.id == id) with
          | none => false
          | some node => (q.allowedNodeTypes.length != 0) &&
              q.allowedNodeTypes.contains node.core.node_type) := by
        refine List.filter_congr ?_
        intro id _
        exact hfindeq (fun c => (q.allowedNodeTypes.length != 0) &&
          q.allowedNodeTypes.contains c.node_type) id
      rw [hseedsf]
  · rw [if_neg hcond, if_neg hcond]
    rw [allIds_core_congr h]

theorem mapSet_rel {m2 m1 : List (String × GraphNode)}
    (h : List.Forall₂ (fun e2 e1 => e2.1 = e1.1 ∧ e2.2.core = e1.2.core) m2 m1)
    {k : String} {v2 v1 : GraphNode} (hv : v2.core = v1.core) :
    List.Forall₂ (fun e2 e1 => e2.1 = e1.1 ∧ e2.2.core = e1.2.core)
      (mapSet m2 k v2) (mapSet m1 k v1) := by
  induction h with
  | nil => exact List.Forall₂.cons ⟨rfl, hv⟩ List.Forall₂.nil
  | cons hab htl ih =>
      rename_i e2 e1 t2 t1
      obtain ⟨k2, w2⟩ := e2
      obtain ⟨k1, w1⟩ := e1
      obtain ⟨hk, hw⟩ := hab
      simp only at hk hw
      subst hk
      rw [mapSet_cons, mapSet_cons]
      by_cases hkk : k2 = k
      · rw [if_pos hkk, if_pos hkk]
        exact List.Forall₂.cons ⟨rfl, hv⟩ htl
      · rw [if_neg hkk, if_neg hkk]
        exact List.Forall₂.cons ⟨rfl, hw⟩ ih

theorem buildNodeMap_rel {ns2 ns1 : List GraphNode}
    (h : List.Forall₂ (fun a b => a.core = b.core) ns2 ns1)
    {p2 p1 : GraphNode → Bool} (hp : ∀ a b, a.core = b.core → p2 a = p1 b) :
    List.Forall₂ (fun e2 e1 => e2.1 = e1.1 ∧ e2.2.core = e1.2.core)
      (buildNodeMap ns2 p2) (buildNodeMap ns1 p1) := by
  rw [buildNodeMap, buildNodeMap]
  suffices hs : ∀ acc2 acc1, List.Forall₂ (fun e2 e1 => e2.1 = e1.1 ∧ e2.2.core = e1.2.core)
      acc2 acc1 →
      List.Forall₂ (fun e2 e1 => e2.1 = e1.1 ∧ e2.2.core = e1.2.core)
        (ns2.foldl (fun m n => if p2 n then mapSet m n.core.id n else m) acc2)
        (ns1.foldl (fun m n => if p1 n then mapSet m n.core.id n else m) acc1) from
    hs [] [] List.Forall₂.nil
  intro acc2 acc1 hacc
  induction h generalizing acc2 acc1 with
  | nil => exact hacc
  | cons hab htl ih =>
      rename_i a b t2 t1
      simp only [List.foldl_cons]
      rw [hp a b hab]
      by_cases hpb : p1 b = true
      · rw [if_pos hpb, if_pos hpb]
        have hid : a.core.id = b.core.id := by rw [hab]
        rw [hid]
        exact ih _ _ (mapSet_rel hacc hab)
      · rw [if_neg hpb, if_neg hpb]
        exact ih _ _ hacc

theorem rel_mapKeys_eq {m2 m1 : List (String × GraphNode)}
    (h : List.Forall₂ (fun e2 e1 => e2.1 = e1.1 ∧ e2.2.core = e1.2.core) m2 m1) :
    mapKeys m2 = mapKeys m1 := by
  induction h with
  | nil => rfl
  | cons hab htl ih =>
      simp only [mapKeys, List.map_cons] at *
      rw [hab.1, ih]

theorem rel_mapHas_eq {m2 m1 : List (String × GraphNode)}
    (h : List.Forall₂ (fun e2 e1 => e2.1 = e1.1 ∧ e2.2.core = e1.2.core) m2 m1)
    (k : String) : mapHas m2 k = mapHas m1 k := by
  have hk := rel_mapKeys_eq h
  by_cases hm : k ∈ mapKeys m1
  · have h2 : mapHas m2 k = true := (mapHas_iff_mem_keys _ _).2 (by rw [hk]; exact hm)
    have h1 : mapHas m1 k = true := (mapHas_iff_mem_keys _ _).2 hm
    rw [h2, h1]
  · have h2 : ¬ mapHas m2 k = true := fun hc =>
      hm (by rw [← hk]; exact (mapHas_iff_mem_keys _ _).1 hc)
    have h1 : ¬ mapHas m1 k = true := fun hc => hm ((mapHas_iff_mem_keys _ _).1 hc)
    rw [Bool.not_eq_true] at h2 h1
    rw [h2, h1]

theorem rel_mapValues {m2 m1 : List (String × GraphNode)}
    (h : List.Forall₂ (fun e2 e1 => e2.1 = e1.1 ∧ e2.2.core = e1.2.core) m2 m1) :
    List.Forall₂ (fun a b => a.core = b.core) (mapValues m2) (mapValues m1) := by
  induction h with
  | nil => exact List.Forall₂.nil
  | cons hab htl ih => exact List.Forall₂.cons hab.2 ih

theorem finalizeNode_congr (d : List (String × Nat)) (mv : Int) {a b : GraphNode}
    (h : a.core = b.core) : finalizeNode d mv a = finalizeNode d mv b := by
  obtain ⟨ca, v1, t1, c1, b1⟩ := a
  obtain ⟨cb, v2, t2, c2, b2⟩ := b
  simp only at h
  subst h
  rfl

theorem forall₂_map_eq {α : Type} {l2 l1 : List GraphNode}
    (h : List.Forall₂ (fun a b => a.core = b.core) l2 l1) (f g : GraphNode → α)
    (hfg : ∀ a b, a.core = b.core → f a = g b) : l2.map f = l1.map g := by
  induction h with
  | nil => rfl
  | cons hab htl ih =>
      simp only [List.map_cons]
      rw [hfg _ _ hab, ih]

theorem forall₂_filter_rel {l2 l1 : List GraphNode}
    (h : List.Forall₂ (fun a b => a.core = b.core) l2 l1) (p q : GraphNode → Bool)
    (hpq : ∀ a b, a.core = b.core → p a = q b) :
    List.Forall₂ (fun a b => a.core = b.core) (l2.filter p) (l1.filter q) := by
  induction h with
  | nil => exact List.Forall₂.nil
  | cons hab htl ih =>
      rename_i a b t2 t1
      simp only [List.filter_cons]
      rw [hpq a b hab]
      by_cases hq : q b = true
      · rw [if_pos hq, if_pos hq]
        exact List.Forall₂.cons hab ih
      · rw [if_neg hq, if_neg hq]
        exact ih

theorem connectedNodeIdsOf_congr (state : NetworkBuilderState) {cn2 cn1 : List GraphNode}
    (h : List.Forall₂ (fun a b => a.core = b.core) cn2 cn1) (clinks : List GraphLink) :
    connectedNodeIdsOf state cn2 clinks = connectedNodeIdsOf state cn1 clinks := by
  rw [connectedNodeIdsOf, connectedNodeIdsOf]
  have hmap : (cn2.filter (fun n => (endpointsSet clinks).contains n.core.id &&
        typeMatchB state n)).map (fun n => n.core.id) =
      (cn1.filter (fun n => (endpointsSet clinks).contains n.core.id &&
        typeMatchB state n)).map (fun n => n.core.id) := by
    refine forall₂_map_eq ?_ _ _ (fun a b hab => by rw [hab])
    refine forall₂_filter_rel h _ _ ?_
    intro a b hab
    rw [show a.core.id = b.core.id from by rw [hab],
      show typeMatchB state a = typeMatchB state b from by rw [typeMatchB, typeMatchB, hab]]
  rw [hmap]

theorem maxValOf_congr (d : List (String × Nat)) {l2 l1 : List GraphNode}
    (h : List.Forall₂ (fun a b => a.core = b.core) l2 l1) :
    maxValOf d l2 = maxValOf d l1 := by
  rw [maxValOf, maxValOf]
  rw [forall₂_map_eq h _ _ (fun a b hab => by rw [hab])]

theorem finalizeNodes_congr (links : List GraphLink) {l2 l1 : List GraphNode}
    (h : List.Forall₂ (fun a b => a.core = b.core) l2 l1) :
    finalizeNodes links l2 = finalizeNodes links l1 := by
  simp only [finalizeNodes]
  rw [maxValOf_congr (degreeMapOf links) h]
  exact forall₂_map_eq h _ _ (fun a b hab => finalizeNode_congr _ _ hab)

theorem assembleNetwork_fst_congr (ns2 ns1 : List GraphNode) (ls : List GraphLink)
    (adj : List (String × List AdjEntry)) (q : NetworkBuilderState) (mode : RankMode)
    (cids : List String)
    (h : List.Forall₂ (fun a b => a.core = b.core) ns2 ns1) :
    (assembleNetwork ⟨ns2, ls, adj⟩ q mode cids).1 =
      (assembleNetwork ⟨ns1, ls, adj⟩ q mode cids).1 := by
  have hcmap : List.Forall₂ (fun e2 e1 => e2.1 = e1.1 ∧ e2.2.core = e1.2.core)
      (candidateNodeMapOf ⟨ns2, ls, adj⟩ cids) (candidateNodeMapOf ⟨ns1, ls, adj⟩ cids) :=
    buildNodeMap_rel h (fun a b hab => by
      rw [show a.core.id = b.core.id from by rw [hab]])
  have hclinks : clinksStage ⟨ns2, ls, adj⟩ q cids = clinksStage ⟨ns1, ls, adj⟩ q cids := by
    rw [clinksStage, clinksStage, candidateLinksOf, candidateLinksOf]
    refine List.filter_congr ?_
    intro l _
    rw [rel_mapHas_eq hcmap l.source, rel_mapHas_eq hcmap l.target]
  have hconn : connectedStage ⟨ns2, ls, adj⟩ q cids = connectedStage ⟨ns1, ls, adj⟩ q cids := by
    rw [connectedStage, connectedStage, hclinks]
    exact connectedNodeIdsOf_congr q (rel_mapValues hcmap) _
  have hfin : finalIdsStage ⟨ns2, ls, adj⟩ q mode cids =
      finalIdsStage ⟨ns1, ls, adj⟩ q mode cids := by
    rw [finalIdsStage, finalIdsStage, hclinks, hconn]
    rw [finalNodeIdsOf, finalNodeIdsOf]
    by_cases hlt : q.maxTotalNodes <
        (connectedStage (⟨ns1, ls, adj⟩ : NetworkBuilder) q cids).length
    · rw [if_pos hlt, if_pos hlt]
      by_cases hm : mode = RankMode.subgraph
      · rw [if_pos hm, if_pos hm]
      · rw [if_neg hm, if_neg hm]
        rfl
    · rw [if_neg hlt, if_neg hlt]
  have hsmap : List.Forall₂ (fun e2 e1 => e2.1 = e1.1 ∧ e2.2.core = e1.2.core)
      (smapStage ⟨ns2, ls, adj⟩ q mode cids) (smapStage ⟨ns1, ls, adj⟩ q mode cids) := by
    rw [smapStage, smapStage, selectedNodeMapOf, selectedNodeMapOf, hfin]
    refine buildNodeMap_rel h ?_
    intro a b hab
    rw [show a.core.id = b.core.id from by rw [hab],
      show typeMatchB q a = typeMatchB q b from by rw [typeMatchB, typeMatchB, hab]]
  have hlinks : linksStage ⟨ns2, ls, adj⟩ q mode cids =
      linksStage ⟨ns1, ls, adj⟩ q mode cids := by
    rw [linksStage, linksStage, hclinks, finalLinksOf, finalLinksOf]
    have hfilter : (clinksStage ⟨ns1, ls, adj⟩ q cids).filter
        (fun l => mapHas (smapStage ⟨ns2, ls, adj⟩ q mode cids) l.source &&
          mapHas (smapStage ⟨ns2, ls, adj⟩ q mode cids) l.target) =
        (clinksStage ⟨ns1, ls, adj⟩ q cids).filter
        (fun l => mapHas (smapStage ⟨ns1, ls, adj⟩ q mode cids) l.source &&
          mapHas (smapStage ⟨ns1, ls, adj⟩ q mode cids) l.target) := by
      refine List.filter_congr ?_
      intro l _
      rw [rel_mapHas_eq hsmap l.source, rel_mapHas_eq hsmap l.target]
    rw [hfilter]
  have hnodes : nodesStage ⟨ns2, ls, adj⟩ q mode cids =
      nodesStage ⟨ns1, ls, adj⟩ q mode cids := by
    rw [nodesStage, nodesStage, hlinks]
    exact finalizeNodes_congr _ (rel_mapValues hsmap)
  rw [show (assembleNetwork (⟨ns2, ls, adj⟩ : NetworkBuilder) q mode cids).1 =
      ⟨nodesStage ⟨ns2, ls, adj⟩ q mode cids, linksStage ⟨ns2, ls, adj⟩ q mode cids,
        decide (q.maxTotalNodes < (connectedStage ⟨ns2, ls, adj⟩ q cids).length),
        (connectedStage ⟨ns2, ls, adj⟩ q cids).length⟩ from rfl,
    show (assembleNetwork (⟨ns1, ls, adj⟩ : NetworkBuilder) q mode cids).1 =
      ⟨nodesStage ⟨ns1, ls, adj⟩ q mode cids, linksStage ⟨ns1, ls, adj⟩ q mode cids,
        decide (q.maxTotalNodes < (connectedStage ⟨ns1, ls, adj⟩ q cids).length),
        (connectedStage ⟨ns1, ls, adj⟩ q cids).length⟩ from rfl,
    hnodes, hlinks, hconn]

theorem buildNetwork_core_congr (ns2 ns1 : List GraphNode) (ls : List GraphLink)
    (adj : List (String × List AdjEntry)) (q : NetworkBuilderState) (logic : SearchLogic)
    (mode : RankMode) (hcore : ns2.map GraphNode.core = ns1.map GraphNode.core)
    (hf : ∀ f ∈ q.searchFields, f ∈ recognizedSearchFields) :
    buildNetwork ⟨ns2, ls, adj⟩ q logic mode = buildNetwork ⟨ns1, ls, adj⟩ q logic mode := by
  have hcand := buildCandidateIds_core_congr hcore ls adj q logic hf
  rw [buildNetwork, buildNetwork]
  cases hc : buildCandidateIds (⟨ns1, ls, adj⟩ : NetworkBuilder) q logic with
  | none =>
      rw [buildNetworkFull_none (hcand.trans hc), buildNetworkFull_none hc]
  | some cids =>
      rw [buildNetworkFull_some (hcand.trans hc), buildNetworkFull_some hc]
      exact assembleNetwork_fst_congr ns2 ns1 ls adj q mode cids
        (forall₂_core_of_map_eq hcore)

/-- C7: with search fields drawn from the recognized closed field set, running
buildNetwork a second time with the identical query, logic and ranking mode on
the engine state the first call left behind (the first call mutates the stored
display fields of the selected nodes) returns exactly the FilteredGraph of the
first call: identical node and link lists, truncated flag and matchedCount. -/
theorem claim_C7_idempotent (ns : List GraphNode) (ls : List GraphLink)
    (q : NetworkBuilderState) (logic : SearchLogic) (mode : RankMode)
    (hf : ∀ f ∈ q.searchFields, f ∈ recognizedSearchFields) :
    buildNetwork (buildNetworkApply (mkNetworkBuilder ns ls) q logic mode) q logic mode =
      buildNetwork (mkNetworkBuilder ns ls) q logic mode := by
  have hcore := buildNetworkFull_snd_cores (mkNetworkBuilder ns ls) q logic mode
  exact buildNetwork_core_congr
    ((buildNetworkFull (mkNetworkBuilder ns ls) q logic mode).2) ns ls
    (buildAdjacency ls) q logic mode hcore hf

/-- C7 witness at a concrete input. -/
theorem claim_C7_idempotent_witness :
    (∀ f ∈ demoQueryAll.searchFields, f ∈ recognizedSearchFields) ∧
      buildNetwork (buildNetworkApply demoBuilder demoQueryAll SearchLogic.OR RankMode.global)
          demoQueryAll SearchLogic.OR RankMode.global =
        buildNetwork demoBuilder demoQueryAll SearchLogic.OR RankMode.global :=
  ⟨by decide,
    claim_C7_idempotent demoNodes demoLinks demoQueryAll SearchLogic.OR RankMode.global
      (by decide)⟩
